import Mathlib

/-!
Verification of the core of the rag-eval-engine repository: a shallow embedding
of the hybrid retrieval ranker, the LLM router, the cost tracker, the semantic
query cache, the prompt builder, the metrics engine, the auto-tuner and the
query pipeline, with theorems settling the frozen specification claims.

Numeric values that are Python floats in the source are modelled as rationals;
wall-clock readings (`time.perf_counter`, `time.time`) are threaded through as
explicit parameters.
-/

namespace RagEval

/-! ## Retrieval data model (src/retrieval/vector_search.py, sparse_search.py, hybrid_ranker.py) -/

/-- `SearchResult` from src/retrieval/vector_search.py. -/
structure SearchResult where
  text : String
  score : ℚ
  chunk_index : Int
  metadata : List (String × String)
  deriving DecidableEq, Repr

/-- `SparseResult` from src/retrieval/sparse_search.py. -/
structure SparseResult where
  text : String
  score : ℚ
  chunk_index : Int
  metadata : List (String × String)
  deriving DecidableEq, Repr

/-- `RankedResult` from src/retrieval/hybrid_ranker.py. -/
structure RankedResult where
  text : String
  score : ℚ
  vector_score : ℚ
  sparse_score : ℚ
  chunk_index : Int
  metadata : List (String × String)
  deriving DecidableEq, Repr

/-- Python `str.strip()` on a character list: drop leading and trailing
whitespace. -/
def charsStrip (l : List Char) : List Char :=
  ((l.dropWhile Char.isWhitespace).reverse.dropWhile Char.isWhitespace).reverse

/-- Python `str.lower()`: lowercase every character. -/
def strLower (s : String) : String :=
  ⟨s.data.map Char.toLower⟩

/-- `_result_key` from src/retrieval/hybrid_ranker.py:
`text[:200].strip().lower()` (first 200 characters, stripped, lowercased). -/
def resultKey (text : String) : String :=
  ⟨(charsStrip (text.data.take 200)).map Char.toLower⟩

/-- One value of the `scores` dict built inside `reciprocal_rank_fusion`:
`{text, vector_rrf, sparse_rrf, vector_score, sparse_score, chunk_index, metadata}`. -/
structure FusedEntry where
  text : String
  vector_rrf : ℚ
  sparse_rrf : ℚ
  vector_score : ℚ
  sparse_score : ℚ
  chunk_index : Int
  metadata : List (String × String)
  deriving DecidableEq, Repr

/-- The `scores` dict of `reciprocal_rank_fusion`, as an insertion-ordered
association list keyed by the canonical result key. -/
abbrev Scores := List (String × FusedEntry)

/-- One iteration of the vector loop of `reciprocal_rank_fusion` (hybrid_ranker.py
lines 51-65): insert a fresh entry when `key` is absent (Python dicts append new
keys at the end), then set `vector_rrf` and `vector_score` on the entry. -/
def upsertVector (key : String) (r : SearchResult) (rrf_score : ℚ) : Scores → Scores
  | [] => [(key, { text := r.text, vector_rrf := rrf_score, sparse_rrf := 0,
                   vector_score := r.score, sparse_score := 0,
                   chunk_index := r.chunk_index, metadata := r.metadata })]
  | (k, e) :: rest =>
    if k = key then
      (k, { e with vector_rrf := rrf_score, vector_score := r.score }) :: rest
    else
      (k, e) :: upsertVector key r rrf_score rest

/-- One iteration of the sparse loop of `reciprocal_rank_fusion` (hybrid_ranker.py
lines 67-81), symmetric to `upsertVector`. -/
def upsertSparse (key : String) (r : SparseResult) (rrf_score : ℚ) : Scores → Scores
  | [] => [(key, { text := r.text, vector_rrf := 0, sparse_rrf := rrf_score,
                   vector_score := 0, sparse_score := r.score,
                   chunk_index := r.chunk_index, metadata := r.metadata })]
  | (k, e) :: rest =>
    if k = key then
      (k, { e with sparse_rrf := rrf_score, sparse_score := r.score }) :: rest
    else
      (k, e) :: upsertSparse key r rrf_score rest

/-- The whole vector loop: `for rank, result in enumerate(vector_results)` with
`rrf = 1 / (rrf_k + rank + 1)`. -/
def vectorPass (rrf_k : ℚ) : List SearchResult → Nat → Scores → Scores
  | [], _, m => m
  | r :: rest, rank, m =>
    vectorPass rrf_k rest (rank + 1)
      (upsertVector (resultKey r.text) r (1 / (rrf_k + (rank : ℚ) + 1)) m)

/-- The whole sparse loop: `for rank, result in enumerate(sparse_results)`. -/
def sparsePass (rrf_k : ℚ) : List SparseResult → Nat → Scores → Scores
  | [], _, m => m
  | r :: rest, rank, m =>
    sparsePass rrf_k rest (rank + 1)
      (upsertSparse (resultKey r.text) r (1 / (rrf_k + (rank : ℚ) + 1)) m)

/-- Turning one `scores` entry into a `RankedResult` (hybrid_ranker.py lines 83-96):
`combined = alpha * vector_rrf + (1 - alpha) * sparse_rrf`. -/
def combineEntry (alpha : ℚ) (e : FusedEntry) : RankedResult :=
  { text := e.text
    score := alpha * e.vector_rrf + (1 - alpha) * e.sparse_rrf
    vector_score := e.vector_score
    sparse_score := e.sparse_score
    chunk_index := e.chunk_index
    metadata := e.metadata }

/-- Python `ranked.sort(key=lambda r: r.score, reverse=True)`: a stable descending
sort by score, modelled by insertion sort with the total relation
`a before b iff b.score ≤ a.score`. -/
def sortByScoreDesc (l : List RankedResult) : List RankedResult :=
  List.insertionSort (fun a b => b.score ≤ a.score) l

/-- `reciprocal_rank_fusion` from src/retrieval/hybrid_ranker.py (defaults in the
source: `alpha=0.7`, `top_k=5`, `rrf_k=60`). -/
def reciprocal_rank_fusion (vector_results : List SearchResult)
    (sparse_results : List SparseResult) (alpha : ℚ) (top_k : Nat) (rrf_k : ℚ) :
    List RankedResult :=
  let scores := sparsePass rrf_k sparse_results 0 (vectorPass rrf_k vector_results 0 [])
  let ranked := scores.map (fun p => combineEntry alpha p.2)
  (sortByScoreDesc ranked).take top_k

/-- `hybrid_search` from src/retrieval/hybrid_ranker.py, over the outcomes of its
two sub-searches (which hit the vector store and the BM25 index).  The source
resolves `k = top_k or settings.default_top_k` (Python truthiness, so `0` also
falls back) and `weight = alpha if alpha is not None else settings.hybrid_alpha`,
then calls `vector_search` and `sparse_search` with no exception handling, so a
raised exception on either side propagates; this is modelled by `Except`, an
`.error` outcome standing for a raised exception. -/
def hybrid_search (default_top_k : Nat) (hybrid_alpha : ℚ)
    (vres : Except String (List SearchResult))
    (sres : Except String (List SparseResult))
    (top_k : Option Nat) (alpha : Option ℚ) :
    Except String (List RankedResult) := do
  let k := match top_k with
    | none => default_top_k
    | some t => if t = 0 then default_top_k else t
  let weight := match alpha with
    | none => hybrid_alpha
    | some a => a
  let vector_results ← vres
  let sparse_results ← sres
  pure (reciprocal_rank_fusion vector_results sparse_results weight k 60)

/-! ## Cost tracker (src/generation/cost_tracker.py) -/

/-- Does the character list `hay` start with `needle`? -/
def charsStartWith : List Char → List Char → Bool
  | _, [] => true
  | [], _ :: _ => false
  | h :: hs, n :: ns => h == n && charsStartWith hs ns

/-- Does `needle` occur contiguously inside `hay`? -/
def charsContain (hay needle : List Char) : Bool :=
  match hay with
  | [] => needle.isEmpty
  | _ :: rest => charsStartWith hay needle || charsContain rest needle

/-- Python substring containment `needle in hay`. -/
def strContains (hay needle : String) : Bool :=
  charsContain hay.toList needle.toList

/-- `COST_TABLE` from src/generation/cost_tracker.py, with Python dict insertion
order preserved.  Rates are (input, output) dollars per 1M tokens. -/
def COST_TABLE : List (String × ℚ × ℚ) :=
  [ ("gpt-4o", (2.50, 10.00)),
    ("gpt-4o-mini", (0.15, 0.60)),
    ("gpt-4-turbo", (10.00, 30.00)),
    ("gpt-4", (30.00, 60.00)),
    ("gpt-3.5-turbo", (0.50, 1.50)),
    ("o1", (15.00, 60.00)),
    ("o1-mini", (3.00, 12.00)),
    ("o3-mini", (1.10, 4.40)),
    ("claude-3-5-sonnet", (3.00, 15.00)),
    ("claude-3-5-haiku", (0.80, 4.00)),
    ("claude-3-opus", (15.00, 75.00)),
    ("claude-sonnet-4", (3.00, 15.00)),
    ("claude-haiku-4", (0.80, 4.00)),
    ("claude-opus-4", (15.00, 75.00)) ]

/-- `_match_model` from src/generation/cost_tracker.py: scan `COST_TABLE` in
insertion order and return the rates of the first pattern occurring as a
substring of the lowercased model name. -/
def matchModel (model : String) : Option (ℚ × ℚ) :=
  (COST_TABLE.find? (fun p => strContains (strLower model) p.1)).map (fun p => p.2)

/-- `calculate_cost` from src/generation/cost_tracker.py. -/
def calculate_cost (model : String) (input_tokens output_tokens : Int) : ℚ :=
  match matchModel model with
  | none => 0
  | some (input_cost_per_m, output_cost_per_m) =>
    (input_tokens : ℚ) / 1000000 * input_cost_per_m
      + (output_tokens : ℚ) / 1000000 * output_cost_per_m

/-! ## LLM router (src/generation/llm_client.py) -/

/-- Python `str.startswith`. -/
def pyStartsWith (s pre : String) : Bool :=
  charsStartWith s.data pre.data

/-- Python truthiness of an optional API-key string (`None` and `""` are falsy). -/
def keyTruthy : Option String → Bool
  | none => false
  | some s => !s.isEmpty

/-- The three generation providers `generate` can dispatch to. -/
inductive Provider where
  | anthropic
  | openai
  | ollama
  deriving DecidableEq, Repr

/-- The dispatch logic of `generate` (src/generation/llm_client.py lines 34-41):
Anthropic when the Anthropic key is truthy and the model starts with `claude`;
OpenAI when the OpenAI key is truthy and the model starts with `gpt`, `o1` or
`o3`; otherwise the local Ollama provider. -/
def generateRoute (anthropic_api_key openai_api_key : Option String)
    (model_name : String) : Provider :=
  if keyTruthy anthropic_api_key && pyStartsWith model_name "claude" then
    .anthropic
  else if keyTruthy openai_api_key &&
      (pyStartsWith model_name "gpt" || pyStartsWith model_name "o1"
        || pyStartsWith model_name "o3") then
    .openai
  else
    .ollama

/-! ## Prompt builder (src/generation/prompt_builder.py) -/

/-- `SYSTEM_PROMPT` from src/generation/prompt_builder.py, verbatim. -/
def SYSTEM_PROMPT : String :=
  "You are a precise, helpful assistant that answers questions based ONLY on the provided context.\n\nRules:\n1. Only use information from the provided context to answer.\n2. If the context doesn\x27t contain enough information, say \"I don\x27t have enough information to answer this question based on the provided documents.\"\n3. Cite your sources by referencing [Source N] where N corresponds to the context chunk number.\n4. Never make up or hallucinate information.\n5. Be concise and direct in your answers.\n6. If multiple sources support your answer, cite all relevant ones."

/-- One entry of the `sources` list built by `build_prompt`:
`(index: 1-based, text: first 200 chars, source, score, chunk_index)`. -/
structure SourceInfo where
  index : Nat
  text : String
  source : String
  score : ℚ
  chunk_index : Int
  deriving DecidableEq, Repr

/-- Python `metadata.get(key)` over the string-valued metadata model. -/
def metaGet (m : List (String × String)) (key : String) : Option String :=
  (m.find? (fun p => p.1 == key)).map (fun p => p.2)

/-- The chunk-packing loop of `build_prompt` (prompt_builder.py lines 37-57):
iterate results in order with a running token count, and `break` at the first
chunk whose tokens would push the count past `token_budget`.  `ct` stands for
`count_tokens`; returns `(context_parts, sources)`. -/
def packChunks (ct : String → Nat) (token_budget : Int) :
    List RankedResult → Nat → Nat → List String × List SourceInfo
  | [], _, _ => ([], [])
  | result :: rest, i, used_tokens =>
    let chunk_tokens := ct result.text
    if (used_tokens : Int) + chunk_tokens > token_budget then ([], [])
    else
      let source_info :=
        (metaGet result.metadata "source").getD ("chunk_" ++ toString result.chunk_index)
      let page_info := (metaGet result.metadata "page").getD ""
      let source_detail :=
        if page_info.isEmpty then source_info
        else source_info ++ " (page " ++ page_info ++ ")"
      let part :=
        "[Source " ++ toString (i + 1) ++ "] (" ++ source_detail ++ "):\n" ++ result.text
      let src : SourceInfo :=
        { index := i + 1
          text := if result.text.length > 200 then result.text.take 200 ++ "..."
                  else result.text
          source := source_info
          score := result.score
          chunk_index := result.chunk_index }
      let packed := packChunks ct token_budget rest (i + 1) (used_tokens + chunk_tokens)
      (part :: packed.1, src :: packed.2)

/-- `build_prompt` from src/generation/prompt_builder.py, parametric in the token
counter `ct` (`count_tokens`).  Returns `(system_prompt, user_prompt, sources)`. -/
def build_prompt (ct : String → Nat) (query : String) (results : List RankedResult)
    (max_context_tokens : Nat) : String × String × List SourceInfo :=
  let token_budget : Int :=
    (max_context_tokens : Int) - ct SYSTEM_PROMPT - ct query - 200
  let packed := packChunks ct token_budget results 0 0
  let context_block := String.intercalate "\n\n---\n\n" packed.1
  let user_prompt :=
    "Context:\n" ++ context_block ++ "\n\nQuestion: " ++ query
      ++ "\n\nAnswer the question based only on the context above. Cite sources using [Source N] notation."
  (SYSTEM_PROMPT, user_prompt, packed.2)

/-- Modelled from the spec: `count_tokens` (src/ingestion/chunker.py) delegates to
the external `cl100k_base` BPE tokenizer (`tiktoken`), an external collaborator
whose exact token counts are outside the embedding.  The spec constrains it only
by `count_tokens("") == 0` and `count_tokens(t) > 0` for non-empty `t` (section 8,
property 4); the character count satisfies both and is used as a concrete
instance wherever a concrete token counter is needed. -/
def countTokensModel (s : String) : Nat := s.length

/-! ## Semantic query cache (src/caching/query_cache.py) -/

/-- `CachedResult` from src/caching/query_cache.py.  `sources` and `eval_scores`
are JSON-serialized into the payload on store and parsed back on lookup; the
round-trip is modelled structurally. -/
structure CachedResult where
  answer : String
  sources : List SourceInfo
  eval_scores : Option (ℚ × ℚ × ℚ)
  model : String
  created_at : ℚ
  tokens_used : Int
  latency_ms : ℚ
  deriving DecidableEq, Repr

/-- The top-1 point returned by the vector store inside `cache_lookup`, with the
payload fields the lookup inspects (`payload.get` of an absent key gives
Python `None`, hence the `Option`s). -/
structure CachePoint where
  score : ℚ
  payload_collection : Option String
  payload_created_at : ℚ
  payload_answer : String
  payload_sources : List SourceInfo
  payload_eval_scores : Option (ℚ × ℚ × ℚ)
  payload_model : String
  payload_tokens_used : Int
  payload_latency_ms : ℚ
  deriving DecidableEq, Repr

/-- The decision logic of `cache_lookup` (src/caching/query_cache.py lines 58-112)
over the outcome `top` of the top-1 vector query, with `now` the value of
`time.time()`.  Misses when the cache is disabled, no point is returned, the
similarity score is below `cache_threshold`, the stored collection differs from
the lookup collection, or the entry is older than `cache_ttl_seconds`. -/
def cache_lookup (cache_enabled : Bool) (cache_threshold cache_ttl_seconds : ℚ)
    (now : ℚ) (top : Option CachePoint) (collection : String) :
    Option CachedResult :=
  if !cache_enabled then none
  else
    match top with
    | none => none
    | some point =>
      if point.score < cache_threshold then none
      else if point.payload_collection ≠ some collection then none
      else if now - point.payload_created_at > cache_ttl_seconds then none
      else some
        { answer := point.payload_answer
          sources := point.payload_sources
          eval_scores := point.payload_eval_scores
          model := point.payload_model
          created_at := point.payload_created_at
          tokens_used := point.payload_tokens_used
          latency_ms := point.payload_latency_ms }

/-! ## Metrics engine (src/evaluation/metrics.py) -/

/-- `EvalScores` from src/evaluation/metrics.py. -/
structure EvalScores where
  faithfulness : ℚ
  relevance : ℚ
  hallucination_rate : ℚ
  context_precision : ℚ
  context_recall : Option ℚ
  latency_retrieval_ms : ℚ
  latency_generation_ms : ℚ
  deriving DecidableEq, Repr

/-- Python truthiness of the optional `ground_truth` argument (`None` and `""`
are falsy). -/
def groundTruthTruthy : Option String → Bool
  | none => false
  | some s => !s.isEmpty

/-- `evaluate_query` from src/evaluation/metrics.py (lines 189-223), over the
outcomes `faith`, `rel`, `hall`, `prec`, `recall` of the individual scorers
(the scorers themselves call out to an LLM judge and are external effects).
When `lightweight` it runs only the faithfulness and relevance scorers and
keeps the initial values `hallucination_rate = 0.0`, `context_precision = 0.0`,
`context_recall = None`; otherwise it fills all of them, the recall only when
`ground_truth` is truthy. -/
def evaluate_query (faith rel hall precision recallScore : ℚ) (ground_truth : Option String)
    (lightweight : Bool) (latency_retrieval_ms latency_generation_ms : ℚ) :
    EvalScores :=
  let hallucination_rate : ℚ := if lightweight then 0 else hall
  let context_precision : ℚ := if lightweight then 0 else precision
  let context_recall : Option ℚ :=
    if lightweight then none
    else if groundTruthTruthy ground_truth then some recallScore else none
  { faithfulness := faith
    relevance := rel
    hallucination_rate := hallucination_rate
    context_precision := context_precision
    context_recall := context_recall
    latency_retrieval_ms := latency_retrieval_ms
    latency_generation_ms := latency_generation_ms }

/-! ## Auto-tuner (src/retrieval/auto_tune.py) and the query_log schema
    (src/db/models.py) -/

/-- `MIN_QUERIES_FOR_TUNING` from src/retrieval/auto_tune.py. -/
def MIN_QUERIES_FOR_TUNING : Nat := 10

/-- One row of the tuning SELECT
`q.alpha, q.top_k, e.faithfulness, e.relevance` (all but `top_k` filtered
non-null by the WHERE clause). -/
structure TuneRow where
  alpha : ℚ
  top_k : Option Nat
  faithfulness : ℚ
  relevance : ℚ
  deriving DecidableEq, Repr

/-- `binned_alpha = round(round(alpha_val / 0.1) * 0.1, 1)` from auto_tune.py:
snap to the nearest multiple of 0.1 (the outer 1-decimal rounding is the
identity on exact multiples of 0.1; Python rounds float halves to even where
this model rounds halves up, a difference only at exact midpoints of buckets). -/
def snapAlpha (a : ℚ) : ℚ :=
  ((round (a / (1 / 10)) : ℤ) : ℚ) * (1 / 10)

/-- `dict.setdefault(key, []).append(quality)`: append `q` to the bucket of
`key`, creating the bucket at the end of the (insertion-ordered) dict when the
key is new. -/
def addScore {κ : Type} [DecidableEq κ] (key : κ) (q : ℚ) :
    List (κ × List ℚ) → List (κ × List ℚ)
  | [] => [(key, [q])]
  | (k, qs) :: rest =>
    if k = key then (k, qs ++ [q]) :: rest else (k, qs) :: addScore key q rest

/-- The `alpha_scores` accumulation loop of `get_optimal_params`
(auto_tune.py lines 43-50): bucket each row's quality `(faithfulness +
relevance) / 2` under its snapped alpha. -/
def alphaBuckets (rows : List TuneRow) : List (ℚ × List ℚ) :=
  rows.foldl
    (fun m row => addScore (snapAlpha row.alpha) ((row.faithfulness + row.relevance) / 2) m)
    []

/-- The `top_k_scores` accumulation loop of `get_optimal_params`
(auto_tune.py lines 52-53): as `alphaBuckets`, skipping NULL `top_k`. -/
def topKBuckets (rows : List TuneRow) : List (Nat × List ℚ) :=
  rows.foldl
    (fun m row =>
      match row.top_k with
      | none => m
      | some k => addScore k ((row.faithfulness + row.relevance) / 2) m)
    []

/-- The best-bucket selection loop of `get_optimal_params` (auto_tune.py lines
55-73): running best starts at `(None, -1.0)`; buckets with fewer than 3 samples
are skipped; a bucket wins only with a strictly greater mean, so the first seen
wins ties. -/
def pickBest {κ : Type} (buckets : List (κ × List ℚ)) : Option κ :=
  (buckets.foldl
    (fun best p =>
      if 3 ≤ p.2.length then
        let avg := p.2.sum / (p.2.length : ℚ)
        if best.2 < avg then (some p.1, avg) else best
      else best)
    ((none : Option κ), (-1 : ℚ))).1

/-- The post-query body of `get_optimal_params` over the fetched rows:
fewer than `MIN_QUERIES_FOR_TUNING` rows give `(None, None)`, otherwise the
best alpha bucket and the best top_k bucket. -/
def getOptimalParamsCore (rows : List TuneRow) : Option ℚ × Option Nat :=
  if rows.length < MIN_QUERIES_FOR_TUNING then (none, none)
  else (pickBest (alphaBuckets rows), pickBest (topKBuckets rows))

/-- The columns of the `query_log` table as created by `SCHEMA` in
src/db/models.py (lines 59-71). -/
def queryLogColumns : List String :=
  ["id", "collection", "query", "answer", "sources", "model", "tokens_used",
   "latency_ms", "latency_retrieval_ms", "latency_generation_ms", "created_at"]

/-- The `query_log` columns referenced (as `q.<col>`) by the SELECT inside
`get_optimal_params` (auto_tune.py lines 22-31). -/
def autoTuneSelectedColumns : List String :=
  ["alpha", "top_k", "collection", "created_at", "id"]

/-- Whether every `query_log` column referenced by the tuning SELECT exists in
the schema; SQLite raises `no such column` otherwise. -/
def autoTuneQueryValid : Bool :=
  autoTuneSelectedColumns.all (fun c => queryLogColumns.contains c)

/-- `get_optimal_params` from src/retrieval/auto_tune.py.  Its body is wrapped in
`except Exception: ... return None, None`, so when the SELECT references a
column absent from the schema the SQLite error is swallowed and the function
returns `(None, None)` without reaching the bucketing code. -/
def get_optimal_params (rows : List TuneRow) : Option ℚ × Option Nat :=
  if autoTuneQueryValid then getOptimalParamsCore rows else (none, none)

/-! ## Query pipeline (src/evaluation/eval_pipeline.py) -/

/-- `LLMResponse` from src/generation/llm_client.py. -/
structure LLMResponse where
  content : String
  model : String
  tokens_used : Int
  latency_ms : ℚ
  cost_usd : ℚ
  deriving DecidableEq, Repr

/-- `QueryResult` from src/evaluation/eval_pipeline.py. -/
structure QueryResult where
  query_id : String
  answer : String
  sources : List SourceInfo
  eval_scores : Option EvalScores
  tokens_used : Int
  latency_ms : ℚ
  latency_retrieval_ms : ℚ
  latency_generation_ms : ℚ
  model : String
  cache_hit : Bool
  cost_usd : ℚ
  deriving DecidableEq, Repr

/-- The parameter names of `insert_query_log` as defined in src/db/models.py
(lines 211-222). -/
def insertQueryLogParams : List String :=
  ["query_id", "collection", "query", "answer", "sources", "model",
   "tokens_used", "latency_ms", "latency_retrieval_ms", "latency_generation_ms"]

/-- The keyword arguments `run_query_pipeline` passes to `insert_query_log`
(eval_pipeline.py lines 125-139). -/
def pipelineQueryLogKwargs : List String :=
  ["query_id", "collection", "query", "answer", "sources", "model",
   "tokens_used", "latency_ms", "latency_retrieval_ms", "latency_generation_ms",
   "cost_usd", "alpha", "top_k"]

/-- A Python call is well-formed only if every keyword argument names a
parameter of the callee; otherwise the call raises `TypeError` before the
callee body runs. -/
def insertQueryLogCallValid : Bool :=
  pipelineQueryLogKwargs.all (fun k => insertQueryLogParams.contains k)

/-- The settings `run_query_pipeline` and its callees read. -/
structure SettingsModel where
  default_model : String
  default_top_k : Nat
  hybrid_alpha : ℚ
  max_context_tokens : Nat
  deriving Repr

/-- Outcomes of the external effects `run_query_pipeline` performs, in program
order.  `cache_lookup` and `cache_store` swallow their own exceptions
(query_cache.py), so they are total; the auto-tune call is wrapped in
`try/except` by the pipeline itself; retrieval, generation and the database
inserts can raise.  Latencies are wall-clock readings threaded in. -/
structure PipelineEnv where
  cacheLookupResult : Option CachedResult
  autoTuneResult : Except String (Option ℚ × Option Nat)
  vectorResult : Except String (List SearchResult)
  sparseResult : Except String (List SparseResult)
  generateResult : Except String LLMResponse
  evalOutcome : EvalScores
  insertQueryLogResult : Except String Unit
  insertEvalResultOutcome : Except String Unit
  retrievalLatency : ℚ
  generationLatency : ℚ
  totalLatency : ℚ

/-- The arguments of `run_query_pipeline`. -/
structure PipelineArgs where
  query : String
  collection : String
  top_k : Option Nat
  model : Option String
  evaluate : Bool
  lightweight_eval : Bool
  alpha : Option ℚ
  auto_tune : Bool

/-- `run_query_pipeline` from src/evaluation/eval_pipeline.py (lines 39-187).
On a cache hit it returns immediately with `cache_hit=true` and zero stage
latencies.  Otherwise: optional auto-tune (errors swallowed), retrieval
(fatal), prompt build, generation (fatal), optional evaluation, cost, then
persistence.  The persistence call passes keyword arguments `cost_usd`,
`alpha` and `top_k` that `insert_query_log` (src/db/models.py lines 211-222)
does not accept, so the call raises `TypeError` whenever the keyword list is
not covered by the parameter list — and nothing catches errors raised by the
persistence step, so they propagate.  `cache_store` never raises. -/
def run_query_pipeline (ct : String → Nat) (st : SettingsModel) (env : PipelineEnv)
    (args : PipelineArgs) (query_id : String) : Except String QueryResult :=
  let model_name := match args.model with
    | none => st.default_model
    | some m => if m.isEmpty then st.default_model else m
  match env.cacheLookupResult with
  | some cached =>
    .ok { query_id := query_id
          answer := cached.answer
          sources := cached.sources
          eval_scores := none
          tokens_used := cached.tokens_used
          latency_ms := env.totalLatency
          latency_retrieval_ms := 0
          latency_generation_ms := 0
          model := cached.model
          cache_hit := true
          cost_usd := 0 }
  | none =>
    let tuned : Option ℚ × Option Nat :=
      if args.auto_tune then
        match env.autoTuneResult with
        | .error _ => (args.alpha, args.top_k)
        | .ok (opt_alpha, opt_top_k) =>
          ((match opt_alpha with | some a => some a | none => args.alpha),
           (match opt_top_k with | some k => some k | none => args.top_k))
      else (args.alpha, args.top_k)
    let effective_alpha := tuned.1
    let effective_top_k := tuned.2
    match hybrid_search st.default_top_k st.hybrid_alpha env.vectorResult
        env.sparseResult effective_top_k effective_alpha with
    | .error e => .error e
    | .ok results =>
      let prompt := build_prompt ct args.query results st.max_context_tokens
      let sources := prompt.2.2
      match env.generateResult with
      | .error e => .error e
      | .ok llm_response =>
        let eval_scores : Option EvalScores :=
          if args.evaluate then some env.evalOutcome else none
        let cost := calculate_cost model_name llm_response.tokens_used 0
        let persistLog : Except String Unit :=
          if insertQueryLogCallValid then env.insertQueryLogResult
          else .error "TypeError: insert_query_log() got an unexpected keyword argument"
        match persistLog with
        | .error e => .error e
        | .ok _ =>
          let persistEval : Except String Unit :=
            match eval_scores with
            | some _ => env.insertEvalResultOutcome
            | none => .ok ()
          match persistEval with
          | .error e => .error e
          | .ok _ =>
            .ok { query_id := query_id
                  answer := llm_response.content
                  sources := sources
                  eval_scores := eval_scores
                  tokens_used := llm_response.tokens_used
                  latency_ms := env.totalLatency
                  latency_retrieval_ms := env.retrievalLatency
                  latency_generation_ms := env.generationLatency
                  model := model_name
                  cache_hit := false
                  cost_usd := cost }

/-! ## Proof-side notions about the scores association list -/

/-- Lookup in the `scores` dict: the first entry stored under `k`. -/
def lookupKey (m : Scores) (k : String) : Option FusedEntry :=
  (m.find? (fun p => p.1 == k)).map (fun p => p.2)

/-- Well-formedness of the `scores` dict as built by the two fusion loops:
keys are distinct (Python dict keys are unique) and each entry is stored under
the canonical key of its own text. -/
def ScoresWF (m : Scores) : Prop :=
  (m.map Prod.fst).Nodup ∧ ∀ p ∈ m, resultKey p.2.text = p.1

/-! ## Concrete sample values used by counterexamples and witnesses -/

/-- Ten eligible tuning rows realising the claimed auto-tune scenario: one
0.7-alpha bucket with 3 samples of quality 0.8, one 0.3-alpha bucket with 3
samples of quality 0.6, and four singleton buckets (ignored, below 3 samples). -/
def tuningScenarioRows : List TuneRow :=
  [⟨7/10, some 5, 8/10, 8/10⟩, ⟨7/10, some 5, 8/10, 8/10⟩, ⟨7/10, some 5, 8/10, 8/10⟩,
   ⟨3/10, some 5, 6/10, 6/10⟩, ⟨3/10, some 5, 6/10, 6/10⟩, ⟨3/10, some 5, 6/10, 6/10⟩,
   ⟨0, some 5, 9/10, 9/10⟩, ⟨1/10, some 5, 9/10, 9/10⟩,
   ⟨9/10, some 5, 9/10, 9/10⟩, ⟨1, some 5, 9/10, 9/10⟩]

/-- A vector result list whose rank-0 text reappears at rank 2: the second
occurrence overwrites the entry's `vector_rrf` with the worse rank. -/
def dupVectorResults : List SearchResult :=
  [⟨"a", 9/10, 0, []⟩, ⟨"b", 8/10, 1, []⟩, ⟨"a", 7/10, 2, []⟩]

/-- A concrete retrieved chunk. -/
def sampleChunk : RankedResult :=
  ⟨"some retrieved chunk", 1, 1, 0, 0, []⟩

/-- A context window leaving a token budget of exactly zero for the query
`"q"` under the modelled token counter. -/
def c8MaxTokens : Nat :=
  countTokensModel SYSTEM_PROMPT + countTokensModel "q" + 200

/-- Default-like settings for concrete pipeline runs. -/
def sampleSettings : SettingsModel :=
  { default_model := "qwen2.5-coder:14b"
    default_top_k := 5
    hybrid_alpha := 7/10
    max_context_tokens := 4096 }

/-- A pipeline environment where every external effect succeeds: cache miss,
retrieval and generation succeed, and the database would accept a well-formed
insert. -/
def healthyEnv : PipelineEnv :=
  { cacheLookupResult := none
    autoTuneResult := .ok (none, none)
    vectorResult := .ok [⟨"RAG retrieves context before generating.", 9/10, 0, [("source", "notes.md")]⟩]
    sparseResult := .ok []
    generateResult := .ok ⟨"Retrieval-augmented generation. [Source 1]", "qwen2.5-coder:14b", 120, 350, 0⟩
    evalOutcome := ⟨1, 1, 0, 0, none, 10, 20⟩
    insertQueryLogResult := .ok ()
    insertEvalResultOutcome := .ok ()
    retrievalLatency := 10
    generationLatency := 20
    totalLatency := 35 }

/-- Arguments of an ordinary evaluated query. -/
def sampleArgs : PipelineArgs :=
  { query := "what is RAG?"
    collection := "documents"
    top_k := none
    model := none
    evaluate := true
    lightweight_eval := true
    alpha := none
    auto_tune := false }

/-! ## Helper lemmas -/

/-- `List.find?` returns the first element satisfying the predicate: the list
splits into unsatisfying elements, the found element, and a remainder. -/
theorem find_split {α : Type} (p : α → Bool) :
    ∀ (l : List α) (a : α), l.find? p = some a →
      ∃ l₁ l₂, l = l₁ ++ a :: l₂ ∧ p a = true ∧ ∀ x ∈ l₁, p x = false := by
  intro l
  induction l with
  | nil => intro a h; simp [List.find?] at h
  | cons b t ih =>
    intro a h
    by_cases hb : p b = true
    · rw [List.find?_cons_of_pos _ hb] at h
      obtain rfl : b = a := by injection h
      exact ⟨[], t, rfl, hb, by simp⟩
    · rw [List.find?_cons_of_neg _ hb] at h
      obtain ⟨l₁, l₂, hsplit, hpa, hprev⟩ := ih a h
      refine ⟨b :: l₁, l₂, by rw [hsplit, List.cons_append], hpa, ?_⟩
      intro x hx
      rcases List.mem_cons.mp hx with rfl | hx
      · exact Bool.not_eq_true _ ▸ Bool.of_not_eq_true hb
      · exact hprev x hx

instance : IsTotal RankedResult (fun a b => b.score ≤ a.score) :=
  ⟨fun a b => le_total b.score a.score⟩

instance : IsTrans RankedResult (fun a b => b.score ≤ a.score) :=
  ⟨fun _ _ _ h1 h2 => h2.trans h1⟩

/-- The stable descending sort is a permutation of its input. -/
theorem sortByScoreDesc_perm (l : List RankedResult) :
    List.Perm (sortByScoreDesc l) l :=
  List.perm_insertionSort _ l

/-- The stable descending sort yields pairwise non-increasing scores. -/
theorem sortByScoreDesc_sorted (l : List RankedResult) :
    (sortByScoreDesc l).Pairwise (fun a b => b.score ≤ a.score) :=
  List.sorted_insertionSort _ l

/-- Every fused result comes from an entry of the `scores` association list. -/
theorem mem_rrf_exists_entry {v : List SearchResult} {s : List SparseResult}
    {alpha : ℚ} {top_k : Nat} {rrf_k : ℚ} {r : RankedResult}
    (hr : r ∈ reciprocal_rank_fusion v s alpha top_k rrf_k) :
    ∃ p ∈ sparsePass rrf_k s 0 (vectorPass rrf_k v 0 []), r = combineEntry alpha p.2 := by
  unfold reciprocal_rank_fusion at hr
  have h1 : r ∈ sortByScoreDesc
      ((sparsePass rrf_k s 0 (vectorPass rrf_k v 0 [])).map (fun p => combineEntry alpha p.2)) :=
    List.take_subset _ _ hr
  have h2 := (sortByScoreDesc_perm _).mem_iff.mp h1
  obtain ⟨p, hp, hpr⟩ := List.mem_map.mp h2
  exact ⟨p, hp, hpr.symm⟩

/-- `upsertVector` never touches the sparse fields: if every entry has zero
sparse contribution, that stays true. -/
theorem mem_upsertVector_sparse_zero (key : String) (r : SearchResult) (s : ℚ)
    (m : Scores) (hm : ∀ p ∈ m, p.2.sparse_rrf = 0 ∧ p.2.sparse_score = 0) :
    ∀ p ∈ upsertVector key r s m, p.2.sparse_rrf = 0 ∧ p.2.sparse_score = 0 := by
  induction m with
  | nil =>
    intro p hp
    simp only [upsertVector, List.mem_singleton] at hp
    subst hp
    exact ⟨rfl, rfl⟩
  | cons q rest ih =>
    obtain ⟨k, e⟩ := q
    intro p hp
    rw [upsertVector] at hp
    by_cases hk : k = key
    · rw [if_pos hk] at hp
      rcases List.mem_cons.mp hp with h1 | h1
      · subst h1
        exact hm (k, e) (List.mem_cons_self _ _)
      · exact hm p (List.mem_cons_of_mem _ h1)
    · rw [if_neg hk] at hp
      rcases List.mem_cons.mp hp with h1 | h1
      · subst h1
        exact hm (k, e) (List.mem_cons_self _ _)
      · exact ih (fun q hq => hm q (List.mem_cons_of_mem _ hq)) p h1

/-- The whole vector loop never touches the sparse fields. -/
theorem mem_vectorPass_sparse_zero (rrf_k : ℚ) :
    ∀ (rs : List SearchResult) (rank : Nat) (m : Scores),
      (∀ p ∈ m, p.2.sparse_rrf = 0 ∧ p.2.sparse_score = 0) →
      ∀ p ∈ vectorPass rrf_k rs rank m, p.2.sparse_rrf = 0 ∧ p.2.sparse_score = 0 := by
  intro rs
  induction rs with
  | nil => intro rank m hm; simpa [vectorPass] using hm
  | cons r rest ih =>
    intro rank m hm
    rw [vectorPass]
    exact ih _ _ (mem_upsertVector_sparse_zero _ _ _ _ hm)

/-- `upsertSparse` never touches the vector fields. -/
theorem mem_upsertSparse_vector_zero (key : String) (r : SparseResult) (s : ℚ)
    (m : Scores) (hm : ∀ p ∈ m, p.2.vector_rrf = 0 ∧ p.2.vector_score = 0) :
    ∀ p ∈ upsertSparse key r s m, p.2.vector_rrf = 0 ∧ p.2.vector_score = 0 := by
  induction m with
  | nil =>
    intro p hp
    simp only [upsertSparse, List.mem_singleton] at hp
    subst hp
    exact ⟨rfl, rfl⟩
  | cons q rest ih =>
    obtain ⟨k, e⟩ := q
    intro p hp
    rw [upsertSparse] at hp
    by_cases hk : k = key
    · rw [if_pos hk] at hp
      rcases List.mem_cons.mp hp with h1 | h1
      · subst h1
        exact hm (k, e) (List.mem_cons_self _ _)
      · exact hm p (List.mem_cons_of_mem _ h1)
    · rw [if_neg hk] at hp
      rcases List.mem_cons.mp hp with h1 | h1
      · subst h1
        exact hm (k, e) (List.mem_cons_self _ _)
      · exact ih (fun q hq => hm q (List.mem_cons_of_mem _ hq)) p h1

/-- The whole sparse loop never touches the vector fields. -/
theorem mem_sparsePass_vector_zero (rrf_k : ℚ) :
    ∀ (rs : List SparseResult) (rank : Nat) (m : Scores),
      (∀ p ∈ m, p.2.vector_rrf = 0 ∧ p.2.vector_score = 0) →
      ∀ p ∈ sparsePass rrf_k rs rank m, p.2.vector_rrf = 0 ∧ p.2.vector_score = 0 := by
  intro rs
  induction rs with
  | nil => intro rank m hm; simpa [sparsePass] using hm
  | cons r rest ih =>
    intro rank m hm
    rw [sparsePass]
    exact ih _ _ (mem_upsertSparse_vector_zero _ _ _ _ hm)

/-! ## Claim C10: cost table substring matching -/

/-- C10: `calculate_cost` resolves rates by scanning `COST_TABLE` in insertion
order and taking the first pattern that is a substring of the lowercased model
name; hence `"gpt-4o-mini"` is charged the `"gpt-4o"` rates (2.50, 10.00) even
though the table has its own `"gpt-4o-mini"` entry (0.15, 0.60). -/
theorem cost_first_substring_match :
    matchModel "gpt-4o-mini" = some (2.50, 10.00) ∧
    ("gpt-4o-mini", ((0.15 : ℚ), (0.60 : ℚ))) ∈ COST_TABLE ∧
    calculate_cost "gpt-4o-mini" 1000000 1000000 = 12.50 ∧
    (∀ (model : String) (rates : ℚ × ℚ), matchModel model = some rates →
      ∃ pre entry post, COST_TABLE = pre ++ entry :: post ∧ entry.2 = rates ∧
        strContains (strLower model) entry.1 = true ∧
        ∀ q ∈ pre, strContains (strLower model) q.1 = false) := by
  have hfirst : matchModel "gpt-4o-mini" = some (2.50, 10.00) := by
    unfold matchModel COST_TABLE
    rw [List.find?_cons_of_pos _ (by decide)]
    rfl
  refine ⟨hfirst, by norm_num [COST_TABLE], ?_, ?_⟩
  · unfold calculate_cost
    rw [hfirst]
    norm_num
  · intro model rates h
    unfold matchModel at h
    obtain ⟨entry, hfind, hrates⟩ := Option.map_eq_some'.mp h
    obtain ⟨pre, post, hsplit, hpred, hprev⟩ := find_split _ _ _ hfind
    exact ⟨pre, entry, post, hsplit, hrates, hpred, hprev⟩

/-- Witness for `cost_first_substring_match` at the concrete model name
`"gpt-4o-mini"`. -/
theorem cost_first_substring_match_witness :
    ∃ pre entry post, COST_TABLE = pre ++ entry :: post ∧
      entry.2 = ((2.50 : ℚ), (10.00 : ℚ)) ∧
      strContains (strLower "gpt-4o-mini") entry.1 = true ∧
      ∀ q ∈ pre, strContains (strLower "gpt-4o-mini") q.1 = false :=
  cost_first_substring_match.2.2.2 "gpt-4o-mini" (2.50, 10.00)
    (by unfold matchModel COST_TABLE
        rw [List.find?_cons_of_pos _ (by decide)]
        rfl)

/-! ## Claim C9: lightweight evaluation -/

/-- C9: with `lightweight = true`, `evaluate_query` keeps only the faithfulness
and relevance scorer outcomes and leaves `hallucination_rate = 0`,
`context_precision = 0`, `context_recall = none` independently of the other
scorers; with `lightweight = false` it fills all fields, the recall exactly when
a (truthy) ground truth is supplied. -/
theorem evaluate_query_lightweight_fields
    (faith rel hall precision recallScore : ℚ) (gt : Option String) (lr lg : ℚ) :
    (evaluate_query faith rel hall precision recallScore gt true lr lg =
      { faithfulness := faith, relevance := rel, hallucination_rate := 0,
        context_precision := 0, context_recall := none,
        latency_retrieval_ms := lr, latency_generation_ms := lg }) ∧
    (∀ hall2 precision2 recallScore2 : ℚ,
      evaluate_query faith rel hall precision recallScore gt true lr lg =
        evaluate_query faith rel hall2 precision2 recallScore2 gt true lr lg) ∧
    (evaluate_query faith rel hall precision recallScore gt false lr lg =
      { faithfulness := faith, relevance := rel, hallucination_rate := hall,
        context_precision := precision,
        context_recall := if groundTruthTruthy gt then some recallScore else none,
        latency_retrieval_ms := lr, latency_generation_ms := lg }) := by
  refine ⟨?_, ?_, ?_⟩ <;> simp [evaluate_query]

/-! ## Claim C7: cache lookup decision -/

/-- C7: with caching enabled and a top-1 cached point available, `cache_lookup`
returns a cached result precisely when the similarity score clears
`cache_threshold`, the stored collection equals the lookup collection, and the
age `now - created_at` is within `cache_ttl_seconds`; in particular an entry
created `ttl + 1` seconds ago misses even when the other checks pass. -/
theorem cache_lookup_hit_iff (threshold ttl now : ℚ) (point : CachePoint)
    (collection : String) :
    ((cache_lookup true threshold ttl now (some point) collection).isSome = true ↔
      (threshold ≤ point.score ∧ point.payload_collection = some collection ∧
        now - point.payload_created_at ≤ ttl)) ∧
    (point.payload_created_at = now - (ttl + 1) →
      cache_lookup true threshold ttl now (some point) collection = none) := by
  have hcl : cache_lookup true threshold ttl now (some point) collection =
      (if point.score < threshold then none
       else if point.payload_collection ≠ some collection then none
       else if now - point.payload_created_at > ttl then none
       else some
        { answer := point.payload_answer
          sources := point.payload_sources
          eval_scores := point.payload_eval_scores
          model := point.payload_model
          created_at := point.payload_created_at
          tokens_used := point.payload_tokens_used
          latency_ms := point.payload_latency_ms }) := rfl
  rw [hcl]
  constructor
  · split_ifs with h1 h2 h3
    · simp only [Option.isSome_none, Bool.false_eq_true, false_iff]
      rintro ⟨ha, -, -⟩
      exact absurd ha (not_le.mpr h1)
    · simp only [Option.isSome_none, Bool.false_eq_true, false_iff]
      rintro ⟨-, hb, -⟩
      exact h2 hb
    · simp only [Option.isSome_none, Bool.false_eq_true, false_iff]
      rintro ⟨-, -, hc⟩
      exact absurd h3 (not_lt.mpr hc)
    · simp only [Option.isSome_some, true_iff]
      exact ⟨not_lt.mp h1, not_not.mp h2, not_lt.mp h3⟩
  · intro hage
    split_ifs with h1 h2 h3
    · rfl
    · rfl
    · rfl
    · exfalso
      rw [hage] at h3
      have harith : now - (now - (ttl + 1)) = ttl + 1 := by ring
      rw [harith] at h3
      linarith

/-- Witness for `cache_lookup_hit_iff`: a concrete fresh matching point hits,
and the same point aged to `ttl + 1` misses. -/
theorem cache_lookup_hit_iff_witness :
    ((cache_lookup true (95/100) 3600 5000
        (some ⟨97/100, some "documents", 2000, "ans", [], none, "m", 10, 12⟩)
        "documents").isSome = true) ∧
    (cache_lookup true (95/100) 3600 5000
        (some ⟨97/100, some "documents", 5000 - 3601, "ans", [], none, "m", 10, 12⟩)
        "documents") = none := by
  constructor
  · exact (cache_lookup_hit_iff (95/100) 3600 5000
      ⟨97/100, some "documents", 2000, "ans", [], none, "m", 10, 12⟩ "documents").1.mpr
      (by norm_num)
  · exact (cache_lookup_hit_iff (95/100) 3600 5000
      ⟨97/100, some "documents", 5000 - 3601, "ans", [], none, "m", 10, 12⟩ "documents").2
      (by norm_num)

/-! ## Claim C2: LLM routing by model prefix and API key -/

/-- Counterexample to C2 as stated: with the Anthropic key unset, a `claude*`
model is routed to the local Ollama provider instead of erroring, and likewise
a `gpt*` model with the OpenAI key unset. -/
theorem generateRoute_missing_key_counterexample :
    generateRoute none (some "sk-test") "claude-3-5-sonnet" = Provider.ollama ∧
    generateRoute (some "ak-test") none "gpt-4o" = Provider.ollama := by
  decide

/-- C2 (amended): `claude*` models go to Anthropic only when the Anthropic key
is configured (truthy); with the key unset they fall back to the local Ollama
provider rather than erroring; symmetrically `gpt*`/`o1*`/`o3*` models go to
OpenAI only when the OpenAI key is configured, else fall back to Ollama. -/
theorem generateRoute_key_dispatch :
    (∀ ak okey m, keyTruthy ak = true → pyStartsWith m "claude" = true →
      generateRoute ak okey m = Provider.anthropic) ∧
    (∀ ak okey m, keyTruthy ak = false → pyStartsWith m "claude" = true →
      (pyStartsWith m "gpt" || pyStartsWith m "o1" || pyStartsWith m "o3") = false →
      generateRoute ak okey m = Provider.ollama) ∧
    (∀ ak okey m, keyTruthy okey = true →
      (pyStartsWith m "gpt" || pyStartsWith m "o1" || pyStartsWith m "o3") = true →
      (keyTruthy ak = false ∨ pyStartsWith m "claude" = false) →
      generateRoute ak okey m = Provider.openai) ∧
    (∀ ak okey m, keyTruthy okey = false →
      (pyStartsWith m "gpt" || pyStartsWith m "o1" || pyStartsWith m "o3") = true →
      (keyTruthy ak = false ∨ pyStartsWith m "claude" = false) →
      generateRoute ak okey m = Provider.ollama) := by
  refine ⟨?_, ?_, ?_, ?_⟩
  · intro ak okey m h1 h2; simp [generateRoute, h1, h2]
  · intro ak okey m h1 h2 h3; simp [generateRoute, h1, h3]
  · intro ak okey m h1 h2 h3
    rcases h3 with h3 | h3 <;> simp [generateRoute, h1, h2, h3]
  · intro ak okey m h1 h2 h3
    rcases h3 with h3 | h3 <;> simp [generateRoute, h1, h3]

/-- Witness for `generateRoute_key_dispatch` at concrete keys and model names. -/
theorem generateRoute_key_dispatch_witness :
    generateRoute (some "ak") none "claude-3-opus" = Provider.anthropic ∧
    generateRoute none none "claude-3-opus" = Provider.ollama ∧
    generateRoute none (some "ok") "gpt-4o" = Provider.openai ∧
    generateRoute none none "o1-mini" = Provider.ollama :=
  ⟨generateRoute_key_dispatch.1 (some "ak") none "claude-3-opus" (by decide) (by decide),
   generateRoute_key_dispatch.2.1 none none "claude-3-opus" (by decide) (by decide) (by decide),
   generateRoute_key_dispatch.2.2.1 none (some "ok") "gpt-4o" (by decide) (by decide)
     (Or.inl (by decide)),
   generateRoute_key_dispatch.2.2.2 none none "o1-mini" (by decide) (by decide)
     (Or.inl (by decide))⟩

/-! ## Claim C4: auto-tuner vs the query_log schema -/

/-- C4: the tuning SELECT references `query_log.alpha` (and `top_k`), but the
schema in src/db/models.py creates `query_log` without those columns, so the
swallowed SQLite error makes `get_optimal_params` return `(None, None)` for
every collection — including the claimed scenario of 10 eligible rows with a
0.8-quality bucket — even though the bucketing code itself would pick the
0.8-quality bucket's alpha as the claim describes. -/
theorem auto_tune_schema_mismatch :
    autoTuneQueryValid = false ∧
    ("alpha" ∈ autoTuneSelectedColumns ∧ "alpha" ∉ queryLogColumns) ∧
    ("top_k" ∈ autoTuneSelectedColumns ∧ "top_k" ∉ queryLogColumns) ∧
    MIN_QUERIES_FOR_TUNING ≤ tuningScenarioRows.length ∧
    getOptimalParamsCore tuningScenarioRows = (some (7/10), some 5) ∧
    (∀ rows : List TuneRow, get_optimal_params rows = (none, none)) := by
  refine ⟨by decide, ⟨by decide, by decide⟩, ⟨by decide, by decide⟩, by decide, ?_, ?_⟩
  · norm_num [getOptimalParamsCore, tuningScenarioRows, MIN_QUERIES_FOR_TUNING,
      alphaBuckets, topKBuckets, addScore, snapAlpha, pickBest, List.foldl, round_eq]
  · intro rows
    rfl

/-! ## Claim C1: the persistence step of the query pipeline -/

/-- C1: `run_query_pipeline` passes the keyword arguments `cost_usd`, `alpha`
and `top_k` to `insert_query_log`, whose signature in src/db/models.py does not
accept them, so the persistence step raises `TypeError`; as nothing catches
errors from the persistence step, every non-cached query aborts instead of
returning a `QueryResult` — even when retrieval, generation and the database
itself all succeed. -/
theorem pipeline_persistence_aborts_query :
    insertQueryLogCallValid = false ∧
    ("cost_usd" ∈ pipelineQueryLogKwargs ∧ "cost_usd" ∉ insertQueryLogParams) ∧
    ("alpha" ∈ pipelineQueryLogKwargs ∧ "alpha" ∉ insertQueryLogParams) ∧
    ("top_k" ∈ pipelineQueryLogKwargs ∧ "top_k" ∉ insertQueryLogParams) ∧
    (∀ (ct : String → Nat) (st : SettingsModel) (env : PipelineEnv)
      (args : PipelineArgs) (query_id : String),
      env.cacheLookupResult = none →
      (run_query_pipeline ct st env args query_id).toOption = none) := by
  refine ⟨by decide, ⟨by decide, by decide⟩, ⟨by decide, by decide⟩,
    ⟨by decide, by decide⟩, ?_⟩
  intro ct st env args query_id hmiss
  obtain ⟨cl, tuneR, vr, sr, gr, ev, iq, ie, rl, gl, tl⟩ := env
  obtain rfl : cl = none := hmiss
  rcases vr with e | v <;> rcases sr with e' | s <;> rcases gr with e'' | resp <;> rfl

/-- Witness for `pipeline_persistence_aborts_query`: a concrete run in which the
cache misses and every external effect succeeds still produces no result. -/
theorem pipeline_persistence_aborts_query_witness :
    (run_query_pipeline countTokensModel sampleSettings healthyEnv sampleArgs
      "6f0c9e0a").toOption = none :=
  pipeline_persistence_aborts_query.2.2.2.2 countTokensModel sampleSettings
    healthyEnv sampleArgs "6f0c9e0a" rfl

/-! ## Claim C3: hybrid search failure handling -/

/-- Counterexample to C3 as stated: when the vector sub-search raises and the
sparse sub-search succeeds, `hybrid_search` propagates the exception instead of
returning the surviving side's results, and when both raise it propagates the
first exception instead of returning the empty list. -/
theorem hybrid_search_error_propagation_counterexample :
    hybrid_search 5 (7/10) (Except.error "vector store unavailable")
      (Except.ok [⟨"doc", 5, 0, []⟩]) none none
      = Except.error "vector store unavailable" ∧
    hybrid_search 5 (7/10) (Except.error "vector store unavailable")
      (Except.error "bm25 index corrupt") none none
      = Except.error "vector store unavailable" :=
  ⟨rfl, rfl⟩

/-- C3 (amended): an exception in either sub-search propagates out of
`hybrid_search` and aborts the request (the first failing side's error when
both fail).  The claimed graceful behaviour holds only for the weaker event of
a sub-search returning no results without raising: an empty sparse (resp.
vector) result list leaves every fused result with a zero sparse (resp.
vector) contribution — the surviving side alone determines the score — and two
empty result lists fuse to the empty list. -/
theorem hybrid_search_empty_side_fusion :
    (∀ (dk : Nat) (ha : ℚ) (e : String) (sres : Except String (List SparseResult))
      (tk : Option Nat) (al : Option ℚ),
      hybrid_search dk ha (Except.error e) sres tk al = Except.error e) ∧
    (∀ (dk : Nat) (ha : ℚ) (v : List SearchResult) (e : String)
      (tk : Option Nat) (al : Option ℚ),
      hybrid_search dk ha (Except.ok v) (Except.error e) tk al = Except.error e) ∧
    (∀ (dk : Nat) (ha : ℚ) (tk : Option Nat) (al : Option ℚ),
      hybrid_search dk ha (Except.ok []) (Except.ok []) tk al = Except.ok []) ∧
    (∀ (v : List SearchResult) (alpha : ℚ) (top_k : Nat) (rrf_k : ℚ)
      (r : RankedResult), r ∈ reciprocal_rank_fusion v [] alpha top_k rrf_k →
      r.sparse_score = 0 ∧ ∃ p ∈ vectorPass rrf_k v 0 [],
        r = combineEntry alpha p.2 ∧ p.2.sparse_rrf = 0 ∧
        r.score = alpha * p.2.vector_rrf) ∧
    (∀ (s : List SparseResult) (alpha : ℚ) (top_k : Nat) (rrf_k : ℚ)
      (r : RankedResult), r ∈ reciprocal_rank_fusion [] s alpha top_k rrf_k →
      r.vector_score = 0 ∧ ∃ p ∈ sparsePass rrf_k s 0 [],
        r = combineEntry alpha p.2 ∧ p.2.vector_rrf = 0 ∧
        r.score = (1 - alpha) * p.2.sparse_rrf) := by
  refine ⟨fun dk ha e sres tk al => rfl, fun dk ha v e tk al => rfl, ?_, ?_, ?_⟩
  · intro dk ha tk al
    have h0 : ∀ (w : ℚ) (k : Nat), reciprocal_rank_fusion [] [] w k 60 = [] := by
      intro w k
      simp [reciprocal_rank_fusion, vectorPass, sparsePass, sortByScoreDesc,
        List.insertionSort]
    exact congrArg Except.ok (h0 _ _)
  · intro v alpha top_k rrf_k r hr
    obtain ⟨p, hp, hre⟩ := mem_rrf_exists_entry hr
    rw [show sparsePass rrf_k [] 0 (vectorPass rrf_k v 0 []) =
      vectorPass rrf_k v 0 [] from rfl] at hp
    have hz := mem_vectorPass_sparse_zero rrf_k v 0 [] (by simp) p hp
    subst hre
    refine ⟨hz.2, p, hp, rfl, hz.1, ?_⟩
    simp only [combineEntry, hz.1]
    ring
  · intro s alpha top_k rrf_k r hr
    obtain ⟨p, hp, hre⟩ := mem_rrf_exists_entry hr
    rw [show vectorPass rrf_k [] 0 ([] : Scores) = ([] : Scores) from rfl] at hp
    have hz := mem_sparsePass_vector_zero rrf_k s 0 [] (by simp) p hp
    subst hre
    refine ⟨hz.2, p, hp, rfl, hz.1, ?_⟩
    simp only [combineEntry, hz.1]
    ring

/-- Witness for `hybrid_search_empty_side_fusion`: the error-propagation part at
a concrete failing vector search, and the zero-contribution part at a concrete
one-document fusion. -/
theorem hybrid_search_empty_side_fusion_witness :
    hybrid_search 5 (7/10) (Except.error "connection refused")
      (Except.ok []) none none = Except.error "connection refused" ∧
    (combineEntry (7/10) ⟨"doc", 1/61, 0, 1, 0, 0, []⟩).sparse_score = 0 := by
  constructor
  · exact hybrid_search_empty_side_fusion.1 5 (7/10) "connection refused"
      (Except.ok []) none none
  · have hmem : combineEntry (7/10) ⟨"doc", 1/61, 0, 1, 0, 0, []⟩ ∈
        reciprocal_rank_fusion [⟨"doc", 1, 0, []⟩] [] (7/10) 5 60 := by
      norm_num [reciprocal_rank_fusion, vectorPass, sparsePass, upsertVector,
        sortByScoreDesc, List.insertionSort, List.orderedInsert]
    exact (hybrid_search_empty_side_fusion.2.2.2.1 [⟨"doc", 1, 0, []⟩] (7/10) 5 60
      _ hmem).1

/-! ## Well-formedness of the scores association list -/

/-- The keys after a vector upsert: unchanged when the key is present,
appended at the end when it is new. -/
theorem upsertVector_keys (key : String) (r : SearchResult) (s : ℚ) (m : Scores) :
    (upsertVector key r s m).map Prod.fst =
      if key ∈ m.map Prod.fst then m.map Prod.fst else m.map Prod.fst ++ [key] := by
  induction m with
  | nil => simp [upsertVector]
  | cons q rest ih =>
    obtain ⟨k, e⟩ := q
    rw [upsertVector]
    by_cases hk : k = key
    · subst hk
      simp
    · rw [if_neg hk, List.map_cons, List.map_cons, ih]
      by_cases hmem : key ∈ rest.map Prod.fst
      · rw [if_pos hmem, if_pos]
        exact List.mem_cons_of_mem _ hmem
      · rw [if_neg hmem, if_neg, List.cons_append]
        intro hc
        rcases List.mem_cons.mp hc with hc | hc
        · exact hk hc.symm
        · exact hmem hc

/-- The keys after a sparse upsert, same statement. -/
theorem upsertSparse_keys (key : String) (r : SparseResult) (s : ℚ) (m : Scores) :
    (upsertSparse key r s m).map Prod.fst =
      if key ∈ m.map Prod.fst then m.map Prod.fst else m.map Prod.fst ++ [key] := by
  induction m with
  | nil => simp [upsertSparse]
  | cons q rest ih =>
    obtain ⟨k, e⟩ := q
    rw [upsertSparse]
    by_cases hk : k = key
    · subst hk
      simp
    · rw [if_neg hk, List.map_cons, List.map_cons, ih]
      by_cases hmem : key ∈ rest.map Prod.fst
      · rw [if_pos hmem, if_pos]
        exact List.mem_cons_of_mem _ hmem
      · rw [if_neg hmem, if_neg, List.cons_append]
        intro hc
        rcases List.mem_cons.mp hc with hc | hc
        · exact hk hc.symm
        · exact hmem hc

/-- A vector upsert under the canonical key of its own text keeps the
text-key invariant. -/
theorem upsertVector_text (key : String) (r : SearchResult) (s : ℚ) (m : Scores)
    (hkey : resultKey r.text = key) (h : ∀ p ∈ m, resultKey p.2.text = p.1) :
    ∀ p ∈ upsertVector key r s m, resultKey p.2.text = p.1 := by
  induction m with
  | nil =>
    intro p hp
    simp only [upsertVector, List.mem_singleton] at hp
    subst hp
    exact hkey
  | cons q rest ih =>
    obtain ⟨k, e⟩ := q
    intro p hp
    rw [upsertVector] at hp
    by_cases hk : k = key
    · rw [if_pos hk] at hp
      rcases List.mem_cons.mp hp with h1 | h1
      · subst h1
        exact h (k, e) (List.mem_cons_self _ _)
      · exact h p (List.mem_cons_of_mem _ h1)
    · rw [if_neg hk] at hp
      rcases List.mem_cons.mp hp with h1 | h1
      · subst h1
        exact h (k, e) (List.mem_cons_self _ _)
      · exact ih (fun q hq => h q (List.mem_cons_of_mem _ hq)) p h1

/-- A sparse upsert under the canonical key of its own text keeps the
text-key invariant. -/
theorem upsertSparse_text (key : String) (r : SparseResult) (s : ℚ) (m : Scores)
    (hkey : resultKey r.text = key) (h : ∀ p ∈ m, resultKey p.2.text = p.1) :
    ∀ p ∈ upsertSparse key r s m, resultKey p.2.text = p.1 := by
  induction m with
  | nil =>
    intro p hp
    simp only [upsertSparse, List.mem_singleton] at hp
    subst hp
    exact hkey
  | cons q rest ih =>
    obtain ⟨k, e⟩ := q
    intro p hp
    rw [upsertSparse] at hp
    by_cases hk : k = key
    · rw [if_pos hk] at hp
      rcases List.mem_cons.mp hp with h1 | h1
      · subst h1
        exact h (k, e) (List.mem_cons_self _ _)
      · exact h p (List.mem_cons_of_mem _ h1)
    · rw [if_neg hk] at hp
      rcases List.mem_cons.mp hp with h1 | h1
      · subst h1
        exact h (k, e) (List.mem_cons_self _ _)
      · exact ih (fun q hq => h q (List.mem_cons_of_mem _ hq)) p h1

/-- A vector upsert preserves well-formedness. -/
theorem upsertVector_wf (r : SearchResult) (s : ℚ) (m : Scores) (h : ScoresWF m) :
    ScoresWF (upsertVector (resultKey r.text) r s m) := by
  refine ⟨?_, upsertVector_text _ _ _ _ rfl h.2⟩
  rw [upsertVector_keys]
  split_ifs with hmem
  · exact h.1
  · rw [← List.concat_eq_append]
    exact List.Nodup.concat hmem h.1

/-- A sparse upsert preserves well-formedness. -/
theorem upsertSparse_wf (r : SparseResult) (s : ℚ) (m : Scores) (h : ScoresWF m) :
    ScoresWF (upsertSparse (resultKey r.text) r s m) := by
  refine ⟨?_, upsertSparse_text _ _ _ _ rfl h.2⟩
  rw [upsertSparse_keys]
  split_ifs with hmem
  · exact h.1
  · rw [← List.concat_eq_append]
    exact List.Nodup.concat hmem h.1

/-- The vector loop preserves well-formedness. -/
theorem vectorPass_wf (rrf_k : ℚ) :
    ∀ (rs : List SearchResult) (rank : Nat) (m : Scores),
      ScoresWF m → ScoresWF (vectorPass rrf_k rs rank m) := by
  intro rs
  induction rs with
  | nil => intro rank m h; simpa [vectorPass] using h
  | cons r rest ih =>
    intro rank m h
    rw [vectorPass]
    exact ih _ _ (upsertVector_wf _ _ _ h)

/-- The sparse loop preserves well-formedness. -/
theorem sparsePass_wf (rrf_k : ℚ) :
    ∀ (rs : List SparseResult) (rank : Nat) (m : Scores),
      ScoresWF m → ScoresWF (sparsePass rrf_k rs rank m) := by
  intro rs
  induction rs with
  | nil => intro rank m h; simpa [sparsePass] using h
  | cons r rest ih =>
    intro rank m h
    rw [sparsePass]
    exact ih _ _ (upsertSparse_wf _ _ _ h)

/-! ## Claim C5: output contract of the fusion -/

/-- C5: for all inputs, `reciprocal_rank_fusion` returns at most `top_k`
results, with non-increasing scores from head to tail, and with pairwise
distinct canonical keys `lowercase(strip(text[:200]))`. -/
theorem rrf_output_contract (v : List SearchResult) (s : List SparseResult)
    (alpha : ℚ) (top_k : Nat) (rrf_k : ℚ) :
    (reciprocal_rank_fusion v s alpha top_k rrf_k).length ≤ top_k ∧
    (reciprocal_rank_fusion v s alpha top_k rrf_k).Pairwise
      (fun a b => b.score ≤ a.score) ∧
    ((reciprocal_rank_fusion v s alpha top_k rrf_k).map
      (fun r => resultKey r.text)).Nodup := by
  have hwf : ScoresWF (sparsePass rrf_k s 0 (vectorPass rrf_k v 0 [])) :=
    sparsePass_wf _ _ _ _ (vectorPass_wf _ _ _ _ ⟨List.nodup_nil, by simp⟩)
  refine ⟨?_, ?_, ?_⟩
  · unfold reciprocal_rank_fusion
    rw [List.length_take]
    exact min_le_left _ _
  · unfold reciprocal_rank_fusion
    exact List.Pairwise.sublist (List.take_sublist _ _) (sortByScoreDesc_sorted _)
  · unfold reciprocal_rank_fusion
    have hkeys : ((sparsePass rrf_k s 0 (vectorPass rrf_k v 0 [])).map
        (fun p => combineEntry alpha p.2)).map (fun r => resultKey r.text) =
        (sparsePass rrf_k s 0 (vectorPass rrf_k v 0 [])).map Prod.fst := by
      rw [List.map_map]
      exact List.map_congr_left (fun p hp => hwf.2 p hp)
    have hnd : (((sparsePass rrf_k s 0 (vectorPass rrf_k v 0 [])).map
        (fun p => combineEntry alpha p.2)).map (fun r => resultKey r.text)).Nodup := by
      rw [hkeys]
      exact hwf.1
    have hperm : List.Perm
        ((sortByScoreDesc ((sparsePass rrf_k s 0 (vectorPass rrf_k v 0 [])).map
          (fun p => combineEntry alpha p.2))).map (fun r => resultKey r.text))
        (((sparsePass rrf_k s 0 (vectorPass rrf_k v 0 [])).map
          (fun p => combineEntry alpha p.2)).map (fun r => resultKey r.text)) :=
      (sortByScoreDesc_perm _).map _
    have hnd2 := hperm.nodup_iff.mpr hnd
    have hsub := (List.take_sublist top_k (sortByScoreDesc
        ((sparsePass rrf_k s 0 (vectorPass rrf_k v 0 [])).map
          (fun p => combineEntry alpha p.2)))).map (fun r => resultKey r.text)
    exact List.Nodup.sublist hsub hnd2

/-! ## Lookup behaviour of the fusion loops -/

/-- Lookup on a cons cell of the scores list. -/
theorem lookupKey_cons (k : String) (e : FusedEntry) (rest : Scores) (key : String) :
    lookupKey ((k, e) :: rest) key = if k = key then some e else lookupKey rest key := by
  by_cases hk : k = key
  · rw [if_pos hk]
    unfold lookupKey
    rw [List.find?_cons_of_pos]
    · rfl
    · simp [hk]
  · rw [if_neg hk]
    unfold lookupKey
    rw [List.find?_cons_of_neg]
    simp [hk]

/-- Full description of lookup after a vector upsert: the upserted key maps to
the fresh entry (when new) or to the sparse-preserving update (when present);
other keys are untouched. -/
theorem lookupKey_upsertVector (key : String) (r : SearchResult) (s : ℚ)
    (m : Scores) (k : String) :
    lookupKey (upsertVector key r s m) k =
      if k = key then
        match lookupKey m key with
        | none => some ⟨r.text, s, 0, r.score, 0, r.chunk_index, r.metadata⟩
        | some e => some { e with vector_rrf := s, vector_score := r.score }
      else lookupKey m k := by
  induction m with
  | nil =>
    rw [upsertVector, lookupKey_cons]
    by_cases hk : k = key
    · rw [if_pos hk.symm, if_pos hk]
      rfl
    · rw [if_neg (fun h => hk h.symm), if_neg hk]
  | cons q rest ih =>
    obtain ⟨k', e⟩ := q
    rw [upsertVector]
    by_cases hk' : k' = key
    · rw [if_pos hk',
        lookupKey_cons k' { e with vector_rrf := s, vector_score := r.score } rest k,
        lookupKey_cons k' e rest key, lookupKey_cons k' e rest k, if_pos hk']
      by_cases hkk : k' = k
      · have hkey : k = key := hkk.symm.trans hk'
        rw [if_pos hkk, if_pos hkey]
      · have hkey : ¬k = key := fun h => hkk (hk'.trans h.symm)
        rw [if_neg hkk, if_neg hkey, if_neg hkk]
    · rw [if_neg hk',
        lookupKey_cons k' e (upsertVector key r s rest) k,
        lookupKey_cons k' e rest key, lookupKey_cons k' e rest k, if_neg hk']
      by_cases hkk : k' = k
      · have hkne : ¬k = key := fun h => hk' (hkk.trans h)
        rw [if_pos hkk, if_neg hkne, if_pos hkk]
      · rw [if_neg hkk, if_neg hkk, ih]

/-- Full description of lookup after a sparse upsert, symmetric. -/
theorem lookupKey_upsertSparse (key : String) (r : SparseResult) (s : ℚ)
    (m : Scores) (k : String) :
    lookupKey (upsertSparse key r s m) k =
      if k = key then
        match lookupKey m key with
        | none => some ⟨r.text, 0, s, 0, r.score, r.chunk_index, r.metadata⟩
        | some e => some { e with sparse_rrf := s, sparse_score := r.score }
      else lookupKey m k := by
  induction m with
  | nil =>
    rw [upsertSparse, lookupKey_cons]
    by_cases hk : k = key
    · rw [if_pos hk.symm, if_pos hk]
      rfl
    · rw [if_neg (fun h => hk h.symm), if_neg hk]
  | cons q rest ih =>
    obtain ⟨k', e⟩ := q
    rw [upsertSparse]
    by_cases hk' : k' = key
    · rw [if_pos hk',
        lookupKey_cons k' { e with sparse_rrf := s, sparse_score := r.score } rest k,
        lookupKey_cons k' e rest key, lookupKey_cons k' e rest k, if_pos hk']
      by_cases hkk : k' = k
      · have hkey : k = key := hkk.symm.trans hk'
        rw [if_pos hkk, if_pos hkey]
      · have hkey : ¬k = key := fun h => hkk (hk'.trans h.symm)
        rw [if_neg hkk, if_neg hkey, if_neg hkk]
    · rw [if_neg hk',
        lookupKey_cons k' e (upsertSparse key r s rest) k,
        lookupKey_cons k' e rest key, lookupKey_cons k' e rest k, if_neg hk']
      by_cases hkk : k' = k
      · have hkne : ¬k = key := fun h => hk' (hkk.trans h)
        rw [if_pos hkk, if_neg hkne, if_pos hkk]
      · rw [if_neg hkk, if_neg hkk, ih]

/-- A vector pass over results none of which has canonical key `k` leaves the
entry of `k` untouched. -/
theorem lookupKey_vectorPass_untouched (rrf_k : ℚ) (k : String) :
    ∀ (rs : List SearchResult) (rank : Nat) (m : Scores),
      (∀ r ∈ rs, resultKey r.text ≠ k) →
      lookupKey (vectorPass rrf_k rs rank m) k = lookupKey m k := by
  intro rs
  induction rs with
  | nil => intro rank m _; rfl
  | cons r rest ih =>
    intro rank m hr
    rw [vectorPass, ih _ _ (fun r' h' => hr r' (List.mem_cons_of_mem _ h')),
      lookupKey_upsertVector, if_neg]
    exact fun h => hr r (List.mem_cons_self _ _) h.symm

/-- A sparse pass over results none of which has canonical key `k` leaves the
entry of `k` untouched. -/
theorem lookupKey_sparsePass_untouched (rrf_k : ℚ) (k : String) :
    ∀ (rs : List SparseResult) (rank : Nat) (m : Scores),
      (∀ r ∈ rs, resultKey r.text ≠ k) →
      lookupKey (sparsePass rrf_k rs rank m) k = lookupKey m k := by
  intro rs
  induction rs with
  | nil => intro rank m _; rfl
  | cons r rest ih =>
    intro rank m hr
    rw [sparsePass, ih _ _ (fun r' h' => hr r' (List.mem_cons_of_mem _ h')),
      lookupKey_upsertSparse, if_neg]
    exact fun h => hr r (List.mem_cons_self _ _) h.symm

/-- The sparse pass preserves the text and vector contribution of every
existing entry. -/
theorem lookupKey_sparsePass_preserves (rrf_k : ℚ) :
    ∀ (rs : List SparseResult) (rank : Nat) (m : Scores) (k : String) (e : FusedEntry),
      lookupKey m k = some e →
      ∃ e', lookupKey (sparsePass rrf_k rs rank m) k = some e' ∧
        e'.text = e.text ∧ e'.vector_rrf = e.vector_rrf := by
  intro rs
  induction rs with
  | nil => intro rank m k e h; exact ⟨e, h, rfl, rfl⟩
  | cons r rest ih =>
    intro rank m k e h
    rw [sparsePass]
    by_cases hk : k = resultKey r.text
    · have hstep : lookupKey
          (upsertSparse (resultKey r.text) r (1 / (rrf_k + (rank : ℚ) + 1)) m) k =
          some { e with sparse_rrf := 1 / (rrf_k + (rank : ℚ) + 1),
                        sparse_score := r.score } := by
        rw [lookupKey_upsertSparse, if_pos hk, ← hk, h]
      obtain ⟨e', h1, h2, h3⟩ := ih _ _ _ _ hstep
      exact ⟨e', h1, h2, h3⟩
    · have hstep : lookupKey
          (upsertSparse (resultKey r.text) r (1 / (rrf_k + (rank : ℚ) + 1)) m) k =
          some e := by
        rw [lookupKey_upsertSparse, if_neg hk, h]
      exact ih _ _ _ _ hstep

/-- A successful lookup exhibits membership under the looked-up key. -/
theorem lookupKey_mem {m : Scores} {k : String} {e : FusedEntry}
    (h : lookupKey m k = some e) : (k, e) ∈ m := by
  unfold lookupKey at h
  obtain ⟨p, hfind, hpe⟩ := Option.map_eq_some'.mp h
  have hmem := List.mem_of_find?_eq_some hfind
  have hpred := List.find?_some hfind
  obtain ⟨p1, p2⟩ := p
  simp only at hpe
  subst hpe
  have : p1 = k := by simpa using hpred
  subst this
  exact hmem

/-! ## Rank bounds on RRF contributions -/

/-- A vector upsert keeps the bound on `vector_rrf` over entries other than
`k0`, provided the written value is itself bounded or written under `k0`. -/
theorem mem_upsertVector_vrrf_bound (key : String) (r : SearchResult) (s : ℚ)
    (m : Scores) (k0 : String) (B : ℚ)
    (hm : ∀ p ∈ m, p.1 ≠ k0 → p.2.vector_rrf ≤ B) (hs : key = k0 ∨ s ≤ B) :
    ∀ p ∈ upsertVector key r s m, p.1 ≠ k0 → p.2.vector_rrf ≤ B := by
  induction m with
  | nil =>
    intro p hp hpk
    simp only [upsertVector, List.mem_singleton] at hp
    subst hp
    rcases hs with h | h
    · exact absurd h hpk
    · exact h
  | cons q rest ih =>
    obtain ⟨k, e⟩ := q
    intro p hp hpk
    rw [upsertVector] at hp
    by_cases hk : k = key
    · rw [if_pos hk] at hp
      rcases List.mem_cons.mp hp with h1 | h1
      · subst h1
        rcases hs with h | h
        · exact absurd (hk.trans h) hpk
        · exact h
      · exact hm p (List.mem_cons_of_mem _ h1) hpk
    · rw [if_neg hk] at hp
      rcases List.mem_cons.mp hp with h1 | h1
      · subst h1
        exact hm (k, e) (List.mem_cons_self _ _) hpk
      · exact ih (fun q hq => hm q (List.mem_cons_of_mem _ hq)) p h1 hpk

/-- A sparse upsert keeps the bound on `sparse_rrf` over entries other than
`k0`, provided the written value is itself bounded or written under `k0`. -/
theorem mem_upsertSparse_srrf_bound (key : String) (r : SparseResult) (s : ℚ)
    (m : Scores) (k0 : String) (B : ℚ)
    (hm : ∀ p ∈ m, p.1 ≠ k0 → p.2.sparse_rrf ≤ B) (hs : key = k0 ∨ s ≤ B) :
    ∀ p ∈ upsertSparse key r s m, p.1 ≠ k0 → p.2.sparse_rrf ≤ B := by
  induction m with
  | nil =>
    intro p hp hpk
    simp only [upsertSparse, List.mem_singleton] at hp
    subst hp
    rcases hs with h | h
    · exact absurd h hpk
    · exact h
  | cons q rest ih =>
    obtain ⟨k, e⟩ := q
    intro p hp hpk
    rw [upsertSparse] at hp
    by_cases hk : k = key
    · rw [if_pos hk] at hp
      rcases List.mem_cons.mp hp with h1 | h1
      · subst h1
        rcases hs with h | h
        · exact absurd (hk.trans h) hpk
        · exact h
      · exact hm p (List.mem_cons_of_mem _ h1) hpk
    · rw [if_neg hk] at hp
      rcases List.mem_cons.mp hp with h1 | h1
      · subst h1
        exact hm (k, e) (List.mem_cons_self _ _) hpk
      · exact ih (fun q hq => hm q (List.mem_cons_of_mem _ hq)) p h1 hpk

/-- A sparse upsert does not change the `vector_rrf` of any entry other than
a fresh one (which gets `0 ≤ B`). -/
theorem mem_upsertSparse_vrrf_bound (key : String) (r : SparseResult) (s : ℚ)
    (m : Scores) (k0 : String) (B : ℚ) (hB : 0 ≤ B)
    (hm : ∀ p ∈ m, p.1 ≠ k0 → p.2.vector_rrf ≤ B) :
    ∀ p ∈ upsertSparse key r s m, p.1 ≠ k0 → p.2.vector_rrf ≤ B := by
  induction m with
  | nil =>
    intro p hp _
    simp only [upsertSparse, List.mem_singleton] at hp
    subst hp
    exact hB
  | cons q rest ih =>
    obtain ⟨k, e⟩ := q
    intro p hp hpk
    rw [upsertSparse] at hp
    by_cases hk : k = key
    · rw [if_pos hk] at hp
      rcases List.mem_cons.mp hp with h1 | h1
      · subst h1
        exact hm (k, e) (List.mem_cons_self _ _) hpk
      · exact hm p (List.mem_cons_of_mem _ h1) hpk
    · rw [if_neg hk] at hp
      rcases List.mem_cons.mp hp with h1 | h1
      · subst h1
        exact hm (k, e) (List.mem_cons_self _ _) hpk
      · exact ih (fun q hq => hm q (List.mem_cons_of_mem _ hq)) p h1 hpk

/-- From rank `rank` on, every vector RRF value written is at most
`1 / (60 + rank + 1)`, so a bound valid at the entry rank persists through the
whole vector loop (for entries other than `k0`). -/
theorem vectorPass_vrrf_bound (k0 : String) (B : ℚ) :
    ∀ (rs : List SearchResult) (rank : Nat) (m : Scores),
      (∀ p ∈ m, p.1 ≠ k0 → p.2.vector_rrf ≤ B) →
      1 / ((60 : ℚ) + (rank : ℚ) + 1) ≤ B →
      ∀ p ∈ vectorPass 60 rs rank m, p.1 ≠ k0 → p.2.vector_rrf ≤ B := by
  intro rs
  induction rs with
  | nil => intro rank m hm _; simpa [vectorPass] using hm
  | cons r rest ih =>
    intro rank m hm hB
    rw [vectorPass]
    apply ih
    · exact mem_upsertVector_vrrf_bound _ _ _ _ _ _ hm (Or.inr hB)
    · refine le_trans ?_ hB
      apply one_div_le_one_div_of_le
      · positivity
      · push_cast
        linarith

/-- The sparse analogue of `vectorPass_vrrf_bound`. -/
theorem sparsePass_srrf_bound (k0 : String) (B : ℚ) :
    ∀ (rs : List SparseResult) (rank : Nat) (m : Scores),
      (∀ p ∈ m, p.1 ≠ k0 → p.2.sparse_rrf ≤ B) →
      1 / ((60 : ℚ) + (rank : ℚ) + 1) ≤ B →
      ∀ p ∈ sparsePass 60 rs rank m, p.1 ≠ k0 → p.2.sparse_rrf ≤ B := by
  intro rs
  induction rs with
  | nil => intro rank m hm _; simpa [sparsePass] using hm
  | cons r rest ih =>
    intro rank m hm hB
    rw [sparsePass]
    apply ih
    · exact mem_upsertSparse_srrf_bound _ _ _ _ _ _ hm (Or.inr hB)
    · refine le_trans ?_ hB
      apply one_div_le_one_div_of_le
      · positivity
      · push_cast
        linarith

/-- The sparse loop keeps any non-negative bound on the `vector_rrf` of
entries other than `k0`. -/
theorem sparsePass_vrrf_bound (rrf_k : ℚ) (k0 : String) (B : ℚ) (hB : 0 ≤ B) :
    ∀ (rs : List SparseResult) (rank : Nat) (m : Scores),
      (∀ p ∈ m, p.1 ≠ k0 → p.2.vector_rrf ≤ B) →
      ∀ p ∈ sparsePass rrf_k rs rank m, p.1 ≠ k0 → p.2.vector_rrf ≤ B := by
  intro rs
  induction rs with
  | nil => intro rank m hm; simpa [sparsePass] using hm
  | cons r rest ih =>
    intro rank m hm
    rw [sparsePass]
    exact ih _ _ (mem_upsertSparse_vrrf_bound _ _ _ _ _ _ hB hm)

/-! ## The head of the sorted output -/

/-- If `x` strictly dominates every differently-keyed element, the head of the
descending sort carries `x`'s canonical key. -/
theorem head_key_of_strict_max (l : List RankedResult) (x : RankedResult)
    (k0 : String) (hx : x ∈ l) (_hxk : resultKey x.text = k0)
    (hmax : ∀ y ∈ l, resultKey y.text ≠ k0 → y.score < x.score) :
    ∃ h, (sortByScoreDesc l).head? = some h ∧ resultKey h.text = k0 := by
  have hperm := sortByScoreDesc_perm l
  have hx' : x ∈ sortByScoreDesc l := hperm.mem_iff.mpr hx
  cases hsort : sortByScoreDesc l with
  | nil =>
    rw [hsort] at hx'
    cases hx'
  | cons hd tl =>
    refine ⟨hd, rfl, ?_⟩
    by_contra hne
    have hhd_mem : hd ∈ l := hperm.mem_iff.mp (hsort ▸ List.mem_cons_self hd tl)
    have hlt := hmax hd hhd_mem hne
    have hsorted := sortByScoreDesc_sorted l
    rw [hsort] at hsorted hx'
    rcases List.mem_cons.mp hx' with h1 | h1
    · subst h1
      exact absurd hlt (lt_irrefl _)
    · have hle : x.score ≤ hd.score := (List.pairwise_cons.mp hsorted).1 x h1
      exact absurd (lt_of_lt_of_le hlt hle) (lt_irrefl _)

/-- Taking at least one element preserves the head. -/
theorem head_of_take_pos {α : Type} (l : List α) (n : Nat) (hn : 1 ≤ n) :
    (l.take n).head? = l.head? := by
  cases l with
  | nil => simp
  | cons a t =>
    cases n with
    | zero => omega
    | succ m => simp [List.take]

/-! ## Claim C6: which item ranks first at the alpha extremes -/

/-- Counterexample to C6 as stated: in `dupVectorResults` the rank-0 text `"a"`
reappears at rank 2, the second occurrence overwrites the entry's `vector_rrf`
with the worse value `1/63`, and with `alpha = 1.0` the rank-1 item `"b"`
(rrf `1/62`) is placed first instead of the rank-0 item. -/
theorem rrf_alpha_one_counterexample :
    ((reciprocal_rank_fusion dupVectorResults [] 1 5 60).head?.map
      (fun r => r.text)) = some "b" ∧
    resultKey "b" ≠ resultKey "a" := by
  constructor
  · norm_num [reciprocal_rank_fusion, dupVectorResults, vectorPass, sparsePass,
      upsertVector, resultKey, charsStrip, sortByScoreDesc, List.insertionSort,
      List.orderedInsert, combineEntry]
  · decide

/-- C6 (amended): with `alpha = 1.0` and `top_k ≥ 1`, the fused head carries the
canonical key of the vector rank-0 item, provided no later vector result shares
that canonical key (a duplicate overwrites the stored `vector_rrf` with the
worse rank and can demote the rank-0 item); symmetrically for `alpha = 0.0` and
the sparse rank-0 item. -/
theorem rrf_alpha_extremes :
    (∀ (r0 : SearchResult) (tailv : List SearchResult) (s : List SparseResult)
      (top_k : Nat), 1 ≤ top_k →
      (∀ r ∈ tailv, resultKey r.text ≠ resultKey r0.text) →
      ∃ h, (reciprocal_rank_fusion (r0 :: tailv) s 1 top_k 60).head? = some h ∧
        resultKey h.text = resultKey r0.text) ∧
    (∀ (s0 : SparseResult) (tails : List SparseResult) (v : List SearchResult)
      (top_k : Nat), 1 ≤ top_k →
      (∀ r ∈ tails, resultKey r.text ≠ resultKey s0.text) →
      ∃ h, (reciprocal_rank_fusion v (s0 :: tails) 0 top_k 60).head? = some h ∧
        resultKey h.text = resultKey s0.text) := by
  constructor
  · -- alpha = 1.0: the vector rank-0 key wins
    intro r0 tailv s top_k htop hdup
    have hstep : vectorPass 60 (r0 :: tailv) 0 [] =
        vectorPass 60 tailv 1
          (upsertVector (resultKey r0.text) r0 (1 / (60 + ((0 : Nat) : ℚ) + 1)) []) := by
      rw [vectorPass]
    have hlook0 : lookupKey
        (upsertVector (resultKey r0.text) r0 (1 / (60 + ((0 : Nat) : ℚ) + 1)) [])
        (resultKey r0.text) =
        some ⟨r0.text, 1 / (60 + ((0 : Nat) : ℚ) + 1), 0, r0.score, 0,
          r0.chunk_index, r0.metadata⟩ := by
      rw [lookupKey_upsertVector, if_pos rfl]
      rfl
    have hlookv : lookupKey (vectorPass 60 (r0 :: tailv) 0 []) (resultKey r0.text) =
        some ⟨r0.text, 1 / (60 + ((0 : Nat) : ℚ) + 1), 0, r0.score, 0,
          r0.chunk_index, r0.metadata⟩ := by
      rw [hstep, lookupKey_vectorPass_untouched 60 (resultKey r0.text) tailv 1 _ hdup]
      exact hlook0
    obtain ⟨e', hlooks, htext, hvrrf⟩ :=
      lookupKey_sparsePass_preserves 60 s 0 _ (resultKey r0.text) _ hlookv
    have hmem := lookupKey_mem hlooks
    have hwf : ScoresWF (sparsePass 60 s 0 (vectorPass 60 (r0 :: tailv) 0 [])) :=
      sparsePass_wf _ _ _ _ (vectorPass_wf _ _ _ _ ⟨List.nodup_nil, by simp⟩)
    have hboundv : ∀ p ∈ vectorPass 60 (r0 :: tailv) 0 [],
        p.1 ≠ resultKey r0.text → p.2.vector_rrf ≤ 1/62 := by
      rw [hstep]
      apply vectorPass_vrrf_bound
      · intro p hp hpk
        simp only [upsertVector, List.mem_singleton] at hp
        subst hp
        exact absurd rfl hpk
      · norm_num
    have hbound : ∀ p ∈ sparsePass 60 s 0 (vectorPass 60 (r0 :: tailv) 0 []),
        p.1 ≠ resultKey r0.text → p.2.vector_rrf ≤ 1/62 :=
      sparsePass_vrrf_bound 60 _ _ (by norm_num) _ _ _ hboundv
    have hxmem : combineEntry 1 e' ∈
        (sparsePass 60 s 0 (vectorPass 60 (r0 :: tailv) 0 [])).map
          (fun p => combineEntry 1 p.2) :=
      List.mem_map.mpr ⟨(resultKey r0.text, e'), hmem, rfl⟩
    have hxkey : resultKey (combineEntry 1 e').text = resultKey r0.text := by
      show resultKey e'.text = resultKey r0.text
      rw [htext]
    have hxs : (combineEntry 1 e').score = 1/61 := by
      show 1 * e'.vector_rrf + (1 - 1) * e'.sparse_rrf = 1/61
      rw [hvrrf]
      norm_num
    have hmax : ∀ y ∈ (sparsePass 60 s 0 (vectorPass 60 (r0 :: tailv) 0 [])).map
        (fun p => combineEntry 1 p.2),
        resultKey y.text ≠ resultKey r0.text → y.score < (combineEntry 1 e').score := by
      intro y hy hyk
      obtain ⟨p, hp, hyp⟩ := List.mem_map.mp hy
      subst hyp
      have hpk : p.1 ≠ resultKey r0.text := by
        intro h
        exact hyk ((hwf.2 p hp).trans h)
      have hb := hbound p hp hpk
      rw [hxs]
      show 1 * p.2.vector_rrf + (1 - 1) * p.2.sparse_rrf < 1/61
      nlinarith [hb]
    obtain ⟨h, hh, hhk⟩ := head_key_of_strict_max _ (combineEntry 1 e')
      (resultKey r0.text) hxmem hxkey hmax
    refine ⟨h, ?_, hhk⟩
    unfold reciprocal_rank_fusion
    rw [head_of_take_pos _ _ htop]
    exact hh
  · -- alpha = 0.0: the sparse rank-0 key wins
    intro s0 tails v top_k htop hdup
    have hwfv : ScoresWF (vectorPass 60 v 0 []) :=
      vectorPass_wf _ _ _ _ ⟨List.nodup_nil, by simp⟩
    have hstep : sparsePass 60 (s0 :: tails) 0 (vectorPass 60 v 0 []) =
        sparsePass 60 tails 1
          (upsertSparse (resultKey s0.text) s0 (1 / (60 + ((0 : Nat) : ℚ) + 1))
            (vectorPass 60 v 0 [])) := by
      rw [sparsePass]
    -- the entry stored under the sparse rank-0 key after its upsert
    have hentry : ∃ e1, lookupKey
        (upsertSparse (resultKey s0.text) s0 (1 / (60 + ((0 : Nat) : ℚ) + 1))
          (vectorPass 60 v 0 [])) (resultKey s0.text) = some e1 ∧
        e1.sparse_rrf = 1 / (60 + ((0 : Nat) : ℚ) + 1) ∧
        resultKey e1.text = resultKey s0.text := by
      rw [lookupKey_upsertSparse, if_pos rfl]
      cases hcase : lookupKey (vectorPass 60 v 0 []) (resultKey s0.text) with
      | none => exact ⟨_, rfl, rfl, rfl⟩
      | some e =>
        refine ⟨_, rfl, rfl, ?_⟩
        show resultKey e.text = resultKey s0.text
        exact hwfv.2 _ (lookupKey_mem hcase)
    obtain ⟨e1, hlook1, hsrrf, hkey1⟩ := hentry
    have hlooks : lookupKey (sparsePass 60 (s0 :: tails) 0 (vectorPass 60 v 0 []))
        (resultKey s0.text) = some e1 := by
      rw [hstep, lookupKey_sparsePass_untouched 60 (resultKey s0.text) tails 1 _ hdup]
      exact hlook1
    have hmem := lookupKey_mem hlooks
    have hwf : ScoresWF (sparsePass 60 (s0 :: tails) 0 (vectorPass 60 v 0 [])) :=
      sparsePass_wf _ _ _ _ hwfv
    have hbound0 : ∀ p ∈ vectorPass 60 v 0 [],
        p.1 ≠ resultKey s0.text → p.2.sparse_rrf ≤ 1/62 := by
      intro p hp _
      have := mem_vectorPass_sparse_zero 60 v 0 [] (by simp) p hp
      rw [this.1]
      norm_num
    have hbound1 : ∀ p ∈ upsertSparse (resultKey s0.text) s0
        (1 / (60 + ((0 : Nat) : ℚ) + 1)) (vectorPass 60 v 0 []),
        p.1 ≠ resultKey s0.text → p.2.sparse_rrf ≤ 1/62 :=
      mem_upsertSparse_srrf_bound _ _ _ _ _ _ hbound0 (Or.inl rfl)
    have hbound : ∀ p ∈ sparsePass 60 (s0 :: tails) 0 (vectorPass 60 v 0 []),
        p.1 ≠ resultKey s0.text → p.2.sparse_rrf ≤ 1/62 := by
      rw [hstep]
      apply sparsePass_srrf_bound
      · exact hbound1
      · norm_num
    have hxmem : combineEntry 0 e1 ∈
        (sparsePass 60 (s0 :: tails) 0 (vectorPass 60 v 0 [])).map
          (fun p => combineEntry 0 p.2) :=
      List.mem_map.mpr ⟨(resultKey s0.text, e1), hmem, rfl⟩
    have hxkey : resultKey (combineEntry 0 e1).text = resultKey s0.text := hkey1
    have hxs : (combineEntry 0 e1).score = 1/61 := by
      show 0 * e1.vector_rrf + (1 - 0) * e1.sparse_rrf = 1/61
      rw [hsrrf]
      norm_num
    have hmax : ∀ y ∈ (sparsePass 60 (s0 :: tails) 0 (vectorPass 60 v 0 [])).map
        (fun p => combineEntry 0 p.2),
        resultKey y.text ≠ resultKey s0.text → y.score < (combineEntry 0 e1).score := by
      intro y hy hyk
      obtain ⟨p, hp, hyp⟩ := List.mem_map.mp hy
      subst hyp
      have hpk : p.1 ≠ resultKey s0.text := by
        intro h
        exact hyk ((hwf.2 p hp).trans h)
      have hb := hbound p hp hpk
      rw [hxs]
      show 0 * p.2.vector_rrf + (1 - 0) * p.2.sparse_rrf < 1/61
      nlinarith [hb]
    obtain ⟨h, hh, hhk⟩ := head_key_of_strict_max _ (combineEntry 0 e1)
      (resultKey s0.text) hxmem hxkey hmax
    refine ⟨h, ?_, hhk⟩
    unfold reciprocal_rank_fusion
    rw [head_of_take_pos _ _ htop]
    exact hh

/-- Witness for `rrf_alpha_extremes` at concrete two-element inputs. -/
theorem rrf_alpha_extremes_witness :
    (∃ h, (reciprocal_rank_fusion [⟨"apple", 9/10, 0, []⟩, ⟨"pear", 8/10, 1, []⟩]
        [⟨"plum", 3, 0, []⟩] 1 5 60).head? = some h ∧
      resultKey h.text = resultKey "apple") ∧
    (∃ h, (reciprocal_rank_fusion [⟨"apple", 9/10, 0, []⟩]
        [⟨"plum", 3, 0, []⟩, ⟨"fig", 2, 1, []⟩] 0 5 60).head? = some h ∧
      resultKey h.text = resultKey "plum") :=
  ⟨rrf_alpha_extremes.1 ⟨"apple", 9/10, 0, []⟩ [⟨"pear", 8/10, 1, []⟩]
      [⟨"plum", 3, 0, []⟩] 5 (by norm_num) (by decide),
   rrf_alpha_extremes.2 ⟨"plum", 3, 0, []⟩ [⟨"fig", 2, 1, []⟩]
      [⟨"apple", 9/10, 0, []⟩] 5 (by norm_num) (by decide)⟩

/-! ## Claim C8: the prompt builder's token budget -/

/-- The packing loop in full: at most as many sources as results, the packed
chunks' token sum (above the entry count `used`) stays within the budget, an
already exceeded budget packs nothing, and the first unpacked chunk would
overflow. -/
theorem packChunks_spec (ct : String → Nat) (budget : Int) :
    ∀ (rs : List RankedResult) (i used : Nat),
      (packChunks ct budget rs i used).2.length ≤ rs.length ∧
      ((used : Int) ≤ budget →
        (used : Int) + ((rs.take (packChunks ct budget rs i used).2.length).map
          (fun r => (ct r.text : Int))).sum ≤ budget) ∧
      (budget < (used : Int) → (packChunks ct budget rs i used).2 = []) ∧
      (∀ r, rs.get? (packChunks ct budget rs i used).2.length = some r →
        (used : Int) + ((rs.take (packChunks ct budget rs i used).2.length).map
          (fun r => (ct r.text : Int))).sum + ct r.text > budget) := by
  intro rs
  induction rs with
  | nil =>
    intro i used
    refine ⟨by simp [packChunks], ?_, fun _ => rfl, ?_⟩
    · intro h
      simpa [packChunks] using h
    · intro r hr
      simp [packChunks] at hr
  | cons r rest ih =>
    intro i used
    by_cases hover : (used : Int) + ct r.text > budget
    · have heq : packChunks ct budget (r :: rest) i used = ([], []) := by
        rw [packChunks, if_pos hover]
      rw [heq]
      refine ⟨by simp, ?_, fun _ => rfl, ?_⟩
      · intro h
        simpa using h
      · intro r' hr'
        simp only [List.length_nil, List.get?] at hr'
        obtain rfl : r = r' := by injection hr'
        simpa using hover
    · have hle : (used : Int) + ct r.text ≤ budget := not_lt.mp hover
      have heq : packChunks ct budget (r :: rest) i used =
          ((("[Source " ++ toString (i + 1) ++ "] (" ++
            (if ((metaGet r.metadata "page").getD "").isEmpty then
              (metaGet r.metadata "source").getD ("chunk_" ++ toString r.chunk_index)
            else (metaGet r.metadata "source").getD ("chunk_" ++ toString r.chunk_index)
              ++ " (page " ++ (metaGet r.metadata "page").getD "" ++ ")") ++ "):\n"
            ++ r.text) ::
            (packChunks ct budget rest (i + 1) (used + ct r.text)).1),
          ({ index := i + 1
             text := if r.text.length > 200 then r.text.take 200 ++ "..." else r.text
             source := (metaGet r.metadata "source").getD
               ("chunk_" ++ toString r.chunk_index)
             score := r.score
             chunk_index := r.chunk_index } ::
            (packChunks ct budget rest (i + 1) (used + ct r.text)).2)) := by
        rw [packChunks, if_neg hover]
      obtain ⟨ih1, ih2, ih3, ih4⟩ := ih (i + 1) (used + ct r.text)
      rw [heq]
      simp only [List.length_cons]
      refine ⟨by omega, ?_, ?_, ?_⟩
      · intro _
        have h2 := ih2 (by push_cast; linarith)
        rw [List.take_succ_cons, List.map_cons, List.sum_cons]
        push_cast at h2 ⊢
        linarith
      · intro hlt
        exfalso
        have : (0 : Int) ≤ ct r.text := Int.ofNat_nonneg _
        linarith
      · intro r' hr'
        have h4 := ih4 r' hr'
        rw [List.take_succ_cons, List.map_cons, List.sum_cons]
        push_cast at h4 ⊢
        linarith

set_option maxRecDepth 8192 in
/-- Counterexample to C8 as stated: the user prompt always contains the fixed
context/question template, whose tokens are not charged against the budget, so
with `max_context_tokens` equal to `count_tokens(system) + count_tokens(query)
+ 200` (budget zero) even an empty result list yields a user prompt violating
the claimed inequality. -/
theorem build_prompt_token_bound_counterexample :
    ¬ (countTokensModel (build_prompt countTokensModel "q" [] c8MaxTokens).2.1 +
        countTokensModel SYSTEM_PROMPT + countTokensModel "q" + 200 ≤
        c8MaxTokens) := by
  decide

/-- C8 (amended): `build_prompt` bounds only the packed chunks: it packs a
prefix of the results greedily in order, the packed chunks' token counts sum to
at most `max_context_tokens - ct(system) - ct(query) - 200` (when that budget
is non-negative; nothing is packed when it is negative), and packing stops at
the first chunk that would overflow.  The emitted user prompt additionally
contains the fixed template and per-chunk source labels, whose tokens are not
counted, so the claimed bound on `count_tokens(user_prompt)` does not hold. -/
theorem build_prompt_packing_bound (ct : String → Nat) (query : String)
    (results : List RankedResult) (max_context_tokens : Nat) :
    (build_prompt ct query results max_context_tokens).2.2.length ≤ results.length ∧
    ((results.take (build_prompt ct query results max_context_tokens).2.2.length).map
      (fun r => (ct r.text : Int))).sum ≤
      max ((max_context_tokens : Int) - ct SYSTEM_PROMPT - ct query - 200) 0 ∧
    (∀ r, results.get?
        (build_prompt ct query results max_context_tokens).2.2.length = some r →
      ((results.take (build_prompt ct query results max_context_tokens).2.2.length).map
        (fun r => (ct r.text : Int))).sum + ct r.text >
        (max_context_tokens : Int) - ct SYSTEM_PROMPT - ct query - 200) := by
  have hsrc : (build_prompt ct query results max_context_tokens).2.2 =
      (packChunks ct ((max_context_tokens : Int) - ct SYSTEM_PROMPT - ct query - 200)
        results 0 0).2 := rfl
  obtain ⟨h1, h2, h3, h4⟩ := packChunks_spec ct
    ((max_context_tokens : Int) - ct SYSTEM_PROMPT - ct query - 200) results 0 0
  rw [hsrc]
  refine ⟨h1, ?_, ?_⟩
  · by_cases hb : (0 : Int) ≤ (max_context_tokens : Int) - ct SYSTEM_PROMPT - ct query - 200
    · have := h2 (by simpa using hb)
      refine le_trans ?_ (le_max_left _ _)
      simpa using this
    · have hneg : (max_context_tokens : Int) - ct SYSTEM_PROMPT - ct query - 200 < 0 :=
        not_le.mp hb
      rw [h3 (by simpa using hneg)]
      simp [le_max_iff]
  · intro r hr
    have := h4 r hr
    simpa using this

set_option maxRecDepth 8192 in
/-- Witness for `build_prompt_packing_bound`: with a zero budget a concrete
one-chunk result list packs nothing, and the first (unpacked) chunk would
overflow. -/
theorem build_prompt_packing_bound_witness :
    (([sampleChunk].take
        (build_prompt countTokensModel "q" [sampleChunk] c8MaxTokens).2.2.length).map
      (fun r => (countTokensModel r.text : Int))).sum +
      countTokensModel sampleChunk.text >
      (c8MaxTokens : Int) - countTokensModel SYSTEM_PROMPT -
        countTokensModel "q" - 200 :=
  (build_prompt_packing_bound countTokensModel "q" [sampleChunk] c8MaxTokens).2.2
    sampleChunk (by decide)

end RagEval
